import Mathlib

/-!
Verification of the rclone sync daemon core (rule engine / scheduler / job
lifecycle manager) against its natural-language specification.

This file shallowly embeds the Go source of the repository:

- strings are modelled as `List Char` (`Str`); Go's byte-indexed string
  primitives coincide with character indexing on the ASCII data the claims
  exercise, and all slicing happens at boundaries of ASCII substrings, so
  the character model is faithful there;
- the SQLite catalog is modelled as an explicit record of row lists, and
  each store method as a pure function on that record (SQL UPDATE becomes
  `List.map` with the WHERE clause as the condition, SELECT becomes
  `List.filter`);
- timestamps and byte counts are integers (seconds since epoch / bytes);
- child processes, the filesystem and the RPC endpoint are oracles: the
  child outcome, the transfer-log lines and the port-bindability predicate
  are parameters of the embedded functions.

Functions whose definition is not part of the sources (only their callers
are) are modelled from the specification and say so in their doc comment.
-/

namespace SyncTool

/-- Strings, modelled as character lists (see the header comment). -/
abbrev Str := List Char

/-- Go `unicode.IsSpace` restricted to the ASCII space characters
(the sources only meet ASCII whitespace). -/
def goIsSpace (c : Char) : Bool :=
  c = ' ' || c = '\t' || c = '\n' || c = '\r' || c = '\x0b' || c = '\x0c'

/-- Go `strings.TrimSpace`: drop leading and trailing whitespace. -/
def goTrimSpace (s : Str) : Str :=
  ((s.dropWhile goIsSpace).reverse.dropWhile goIsSpace).reverse

/-- Go `strings.ReplaceAll` for a one-character pattern: every occurrence of
`old` is replaced by the string `new` (which may be empty). -/
def goReplaceChar (old : Char) (new : Str) (s : Str) : Str :=
  s.flatMap (fun c => if c = old then new else [c])

/-- Helper for `goFields`: `cur` is the current token, reversed. -/
def goFieldsAux (cur : Str) : Str → List Str
  | [] => if cur = [] then [] else [cur.reverse]
  | c :: rest =>
      if goIsSpace c then
        if cur = [] then goFieldsAux [] rest
        else cur.reverse :: goFieldsAux [] rest
      else goFieldsAux (c :: cur) rest

/-- Go `strings.Fields`: split around runs of whitespace. -/
def goFields (s : Str) : List Str := goFieldsAux [] s

/-- Go `strings.HasSuffix`. -/
def goEndsWith (s suffix : Str) : Bool := decide (suffix <:+ s)

/-- Go `strings.TrimSuffix`. -/
def goTrimEnd (s suffix : Str) : Str :=
  if goEndsWith s suffix then s.take (s.length - suffix.length) else s

/-- Go `strings.LastIndex`, scanning candidate positions downward from `i`.
Position `i` is tested first; matches are substring-prefix tests on the
remaining tail. -/
def lastIndexFrom (s sub : Str) : Nat → Option Nat
  | 0 => if sub <+: s then some 0 else none
  | i + 1 =>
      if sub <+: s.drop (i + 1) then some (i + 1)
      else lastIndexFrom s sub i

/-- Go `strings.LastIndex`: the largest index at which `sub` occurs in `s`,
or `-1` when it does not occur. -/
def goLastIndex (s sub : Str) : Int :=
  match lastIndexFrom s sub s.length with
  | some k => (k : Int)
  | none => -1

/-- Go `strings.Contains`. -/
def goContainsSub (s sub : Str) : Bool := decide (sub <:+: s)

/-- Go `strings.ToUpper`, ASCII fragment (the size-literal alphabet). -/
def goToUpper (s : Str) : Str := s.map Char.toUpper

/-- Go `strings.ToLower`, ASCII fragment. -/
def goToLower (s : Str) : Str := s.map Char.toLower

/-! ## Transfer-log reader (src/internal/daemon/rclone_log.go) -/

/-- The three completion markers of `parseTransferredPathLine`. -/
def markerStrings : List Str := [": Copied".data, ": Moved".data, ": Skipped".data]

/-- `logHadNothingToTransfer`, with the log already split into lines
(the Go function scans the file at `logPath`; the embedding receives the
lines the scanner would produce). -/
def logHadNothingToTransfer (lines : List Str) : Bool :=
  lines.any fun line =>
    goContainsSub line "There was nothing to transfer".data ||
    goContainsSub line "There was nothing to copy".data ||
    goContainsSub line "There was nothing to move".data

/-- The marker-index loop of `parseTransferredPathLine`:
`idx := -1; for each marker m, if LastIndex(line, m) > idx { idx = j }`. -/
def goParseIdx (line : Str) : Int :=
  markerStrings.foldl (fun acc m => max acc (goLastIndex line m)) (-1)

/-- The separator extraction of `parseTransferredPathLine`: cut after the
last `" : "`, falling back to `": "`. -/
def goExtractHead (head0 : Str) : Str :=
  if goLastIndex head0 " : ".data ≥ 0 then
    head0.drop ((goLastIndex head0 " : ".data).toNat + 3)
  else if goLastIndex head0 ": ".data ≥ 0 then
    head0.drop ((goLastIndex head0 ": ".data).toNat + 2)
  else head0

/-- `parseTransferredPathLine` from rclone_log.go: find the rightmost marker
occurrence; reject index `<= 0`; trim the text before it; cut after the last
`" : "`, falling back to `": "`; trim, replace every backslash by a slash,
reject the empty result. -/
def parseTransferredPathLine (line : Str) : Option Str :=
  if goParseIdx line ≤ 0 then none
  else if goReplaceChar '\\' "/".data
      (goTrimSpace (goExtractHead (goTrimSpace (line.take (goParseIdx line).toNat)))) =
      [] then none
  else
    some (goReplaceChar '\\' "/".data
      (goTrimSpace (goExtractHead (goTrimSpace (line.take (goParseIdx line).toNat)))))

/-- `transferredPathsFromLog`: the paths of all marker lines (the Go
function returns them as a set; membership in this list is the set). -/
def transferredPathsFromLog (lines : List Str) : List Str :=
  lines.filterMap parseTransferredPathLine

/-! ## Numeric parsing (src/unnamed/part_000, `parseSizeBytes`) -/

/-- Decimal digit accumulation. -/
def digitsToNatAux (acc : Nat) : Str → Nat
  | [] => acc
  | c :: rest => digitsToNatAux (acc * 10 + (c.toNat - 48)) rest

/-- The natural number denoted by a digit string (callers check `isDigit`). -/
def digitsToNat (l : Str) : Nat := digitsToNatAux 0 l

/-- All-digit check with at least one digit, returning the value. -/
def parseNatDigits (l : Str) : Option Nat :=
  if l ≠ [] ∧ l.all Char.isDigit then some (digitsToNat l) else none

/-- Go `strconv.ParseInt(s, 10, 64)`: optional sign, decimal digits, and the
int64 range check (Go reports `ErrRange` outside the range; the caller only
distinguishes success, so out-of-range is `none` here). -/
def parseInt64 (s : Str) : Option Int :=
  match s with
  | [] => none
  | c :: rest =>
      let signed : Bool × Str :=
        if c = '-' then (true, rest) else if c = '+' then (false, rest) else (false, s)
      match parseNatDigits signed.2 with
      | none => none
      | some n =>
          let v : Int := if signed.1 then -(n : Int) else (n : Int)
          if v < -(2 ^ 63) ∨ 2 ^ 63 - 1 < v then none else some v

/-- Go `strconv.ParseFloat(s, 64)` on decimal literals, modelled as the
exact decimal value, returned as a pair `(num, k)` denoting the rational
`num / 10^k`.  Go rounds to the nearest binary64; the model is exact, which
coincides with Go whenever the decimal value and the products built from it
are exactly representable (true of every input the claims exercise).  The
hexadecimal, infinity and NaN spellings of Go are not modelled (`none`
here); no size literal reaches them. -/
def parseFloat10 (s : Str) : Option (Int × Nat) :=
  let signed : Bool × Str :=
    match s with
    | c :: rest => if c = '-' then (true, rest) else if c = '+' then (false, rest) else (false, s)
    | [] => (false, ([] : Str))
  let s1 := signed.2
  let ip := s1.takeWhile Char.isDigit
  let r1 := s1.dropWhile Char.isDigit
  let hasDot : Bool := match r1 with | '.' :: _ => true | _ => false
  let fpsrc := if hasDot then r1.drop 1 else []
  let fp := fpsrc.takeWhile Char.isDigit
  let r2 := if hasDot then fpsrc.dropWhile Char.isDigit else r1
  if ip = [] ∧ fp = [] then none
  else
    let expPart : Option Int :=
      match r2 with
      | [] => some 0
      | e :: rest =>
          if e = 'e' ∨ e = 'E' then
            let esigned : Bool × Str :=
              match rest with
              | c :: rr => if c = '-' then (true, rr) else if c = '+' then (false, rr) else (false, rest)
              | [] => (false, rest)
            if esigned.2 ≠ [] ∧ esigned.2.all Char.isDigit then
              some (if esigned.1 then -(digitsToNat esigned.2 : Int) else (digitsToNat esigned.2 : Int))
            else none
          else none
    match expPart with
    | none => none
    | some ex =>
        let base : Int := (digitsToNat (ip ++ fp) : Int)
        let signedNum : Int := if signed.1 then -base else base
        if 0 ≤ ex then some (signedNum * 10 ^ ex.toNat, fp.length)
        else some (signedNum, fp.length + (-ex).toNat)

/-- The unit table of `parseSizeBytes` (second switch); `none` is the
`"invalid size unit"` default branch. -/
def unitMult (u : Str) : Option Int :=
  if u = [] then some 1
  else if u = "K".data ∨ u = "KIB".data then some 1024
  else if u = "M".data ∨ u = "MIB".data then some (1024 ^ 2)
  else if u = "G".data ∨ u = "GIB".data then some (1024 ^ 3)
  else if u = "T".data ∨ u = "TIB".data then some (1024 ^ 4)
  else if u = "P".data ∨ u = "PIB".data then some (1024 ^ 5)
  else if u = "E".data ∨ u = "EIB".data then some (1024 ^ 6)
  else none

/-- The suffix-detection switch of `parseSizeBytes` (first switch, on the
uppercased input). -/
def sizeUnitOf (su : Str) : Str :=
  if goEndsWith su "KIB".data then "KIB".data
  else if goEndsWith su "MIB".data then "MIB".data
  else if goEndsWith su "GIB".data then "GIB".data
  else if goEndsWith su "TIB".data then "TIB".data
  else if goEndsWith su "PIB".data then "PIB".data
  else if goEndsWith su "EIB".data then "EIB".data
  else if goEndsWith su "KB".data then "K".data
  else if goEndsWith su "MB".data then "M".data
  else if goEndsWith su "GB".data then "G".data
  else if goEndsWith su "TB".data then "T".data
  else if goEndsWith su "PB".data then "P".data
  else if goEndsWith su "EB".data then "E".data
  else
    match su.getLast? with
    | some c =>
        if c = 'K' ∨ c = 'M' ∨ c = 'G' ∨ c = 'T' ∨ c = 'P' ∨ c = 'E' then [c] else []
    | none => []

/-- Go's `int64(f)` conversion applied to `v + 0.5` in `parseSizeBytes`,
where `v` is the non-negative rational `n / 10^k`:
`v + 1/2 = (2n + 10^k) / (2·10^k)`.  For values inside the int64 range Go
truncates toward zero (the floor, as `v ≥ 0` at the call site; integer
division below is that floor).  For an out-of-range value the Go
specification leaves the result implementation-defined; mainstream targets
(amd64, arm64) produce `math.MinInt64`, which is what this model returns.
`v + 1/2 ≥ 2^63` is `2n + 10^k ≥ 2^63 · 2 · 10^k` over the integers. -/
def int64OfFloat10 (n : Int) (k : Nat) : Int :=
  if 2 ^ 63 * (2 * 10 ^ k) ≤ 2 * n + 10 ^ k then -(2 ^ 63)
  else (2 * n + 10 ^ k) / (2 * 10 ^ k)

/-- `parseSizeBytes` from the sources.  Notes on the float model:
`float64(math.MaxInt64)` rounds `2^63 - 1` up to exactly `2^63`, so the
overflow guard `v > float64(math.MaxInt64)` is the exact comparison
`v > 2^63` modelled here; the claims only exercise inputs on which the
exact-rational float model agrees with binary64 arithmetic. -/
def parseSizeBytes (s0 : Str) : Except Str Int :=
  let s1 := goTrimSpace s0
  if s1 = [] then .ok 0
  else
    let s2 := goReplaceChar ' ' [] s1
    if s2 = "0".data then .ok 0
    else
      match parseInt64 s2 with
      | some n => if n < 0 then .error "size must be >= 0".data else .ok n
      | none =>
          let su := goToUpper s2
          let unit := sizeUnitOf su
          match unitMult unit with
          | none => .error "invalid size unit".data
          | some mult =>
              let numStr0 := if unit ≠ [] then goTrimEnd su unit else su
              let numStr :=
                if unit = [] ∧ goEndsWith numStr0 "B".data then goTrimEnd numStr0 "B".data
                else numStr0
              if numStr = [] then .error "invalid size".data
              else
                match parseFloat10 numStr with
                | none => .error "invalid size".data
                | some (num, k) =>
                    if num < 0 then .error "size must be >= 0".data
                    else
                      -- v := f * mult is the rational (num·mult) / 10^k, and
                      -- v > 2^63 is num·mult > 2^63·10^k over the integers.
                      if 2 ^ 63 * 10 ^ k < num * mult then .error "size too large".data
                      else .ok (int64OfFloat10 (num * mult) k)

/-! ## Ignore-extension parsing (src/unnamed/part_008) -/

/-- The wildcard characters rejected by `ParseIgnoreExtensions`. -/
def wildcardChars : List Char := ['*', '?', '[', ']']

/-- One token of the `ParseIgnoreExtensions` loop body. -/
def ParseIgnoreExtStep (acc : List Str) (tok0 : Str) : List Str :=
  let tok := goTrimSpace tok0
  if tok = [] then acc
  else
    let t1 := if "*.".data <+: tok then tok.drop 1 else tok
    if "*".data <+: t1 then acc
    else if t1.any (fun c => decide (c ∈ wildcardChars)) then acc
    else
      let t2 := if ".".data <+: t1 then t1 else '.' :: t1
      let t3 := goToLower (goTrimSpace t2)
      if t3 = ".".data then acc
      else if t3 ∈ acc then acc
      else acc ++ [t3]

/-- `ParseIgnoreExtensions` from the sources: comma/space separated tokens,
`*.ext` unwrapped, other wildcard patterns dropped, dot-prefixed, lowered,
de-duplicated.  (The Go `seen` map is the membership test on the
accumulator.) -/
def ParseIgnoreExtensions (raw0 : Str) : List Str :=
  let raw := goTrimSpace raw0
  if raw = [] then []
  else (goFields (goReplaceChar ',' " ".data raw)).foldl ParseIgnoreExtStep []

/-! ## Catalog model (src/internal/store)

Rows of the SQLite tables, with the columns the claims touch.  Timestamps
are seconds since the epoch (`job_metrics` is out of scope), sizes and byte
counters are integers.  The float `avg_speed` column is not part of the
model; no claim mentions it. -/

/-- The file states. -/
def stNew : Str := "new".data

def stStable : Str := "stable".data

def stQueued : Str := "queued".data

def stTransferring : Str := "transferring".data

def stDone : Str := "done".data

def stFailed : Str := "failed".data

/-- The job statuses. -/
def jsRunning : Str := "running".data

def jsDone : Str := "done".data

def jsFailed : Str := "failed".data

def jsTerminated : Str := "terminated".data

/-- A row of the `files` table. -/
structure FileRow where
  ruleId : Str
  path : Str
  size : Int
  modTime : Int
  state : Str
  jobId : Option Str
  failCount : Int
  lastError : Str
  lastSeen : Int
  seenSize : Int
  seenModTime : Int
deriving DecidableEq, Repr

/-- A row of the `jobs` table. -/
structure JobRow where
  jobId : Str
  ruleId : Str
  transferMode : Str
  rcPort : Int
  startedAt : Int
  endedAt : Int
  status : Str
  bytesDone : Int
  error : Str
  logPath : Str
deriving DecidableEq, Repr

/-- The columns of a `rules` row the embedded operations read. -/
structure Rule where
  id : Str
  batchSize : Int
  dailyLimitBytes : Int
  limitGroup : Str
  stableSeconds : Int
deriving DecidableEq, Repr

/-- A row of the `limit_groups` table. -/
structure LimitGroupRow where
  name : Str
  dailyLimitBytes : Int
deriving DecidableEq, Repr

/-- The catalog. -/
structure DB where
  files : List FileRow
  jobs : List JobRow
  rules : List Rule
  groups : List LimitGroupRow
deriving DecidableEq, Repr

/-- `job_id IS NULL OR job_id=''` from `ClaimQueuedForJob`. -/
def jobIdFree (j : Option Str) : Prop := j = none ∨ j = some []

instance (j : Option Str) : Decidable (jobIdFree j) := by
  unfold jobIdFree
  infer_instance

/-- `ORDER BY last_seen DESC`: insertion sort, descending on `last_seen`
(SQLite leaves the relative order of ties unspecified; the embedding fixes
one order, which no claim depends on). -/
def insertByLastSeenDesc (f : FileRow) : List FileRow → List FileRow
  | [] => [f]
  | g :: gs =>
      if g.lastSeen ≤ f.lastSeen then f :: g :: gs
      else g :: insertByLastSeenDesc f gs

/-- Sort by `last_seen` descending. -/
def sortByLastSeenDesc (l : List FileRow) : List FileRow :=
  l.foldr insertByLastSeenDesc []

/-- `Store.HasQueued`. -/
def HasQueued (db : DB) (ruleId : Str) : Bool :=
  db.files.any fun f => f.ruleId = ruleId ∧ f.state = stQueued

/-- The SELECT of the claim transaction: queued unclaimed paths of the
rule, most recently seen first. -/
def claimSelPaths (db : DB) (rule : Rule) : List Str :=
  (sortByLastSeenDesc (db.files.filter fun f =>
    f.ruleId = rule.id ∧ f.state = stQueued ∧ jobIdFree f.jobId)).map (·.path)

/-- The effective LIMIT: a non-positive argument falls back to
`rule.batchSize` (`if limit <= 0 { limit = rule.BatchSize }`). -/
def claimLimit (rule : Rule) (limit : Int) : Int :=
  if limit ≤ 0 then rule.batchSize else limit

/-- The selected paths under the effective LIMIT (SQLite treats a negative
LIMIT as "no limit", hence the first branch). -/
def claimPaths (db : DB) (rule : Rule) (limit : Int) : List Str :=
  if claimLimit rule limit < 0 then claimSelPaths db rule
  else (claimSelPaths db rule).take (claimLimit rule limit).toNat

/-- The per-row UPDATE of the claim transaction
(`SET state='transferring', job_id=? WHERE rule_id=? AND path=? AND
state='queued'`, over the selected paths). -/
def claimUpdateRow (rule : Rule) (jobId : Str) (paths : List Str) (f : FileRow) : FileRow :=
  if f.ruleId = rule.id ∧ f.path ∈ paths ∧ f.state = stQueued then
    { f with state := stTransferring, jobId := some jobId }
  else f

/-- `Store.ClaimQueuedForJob`: select up to `limit` queued unclaimed paths
of the rule (most recently seen first) and move exactly those rows to
`transferring` tagged with `jobId`, in one transaction.  An empty selection
commits without updating. -/
def ClaimQueuedForJob (db : DB) (rule : Rule) (jobId : Str) (limit : Int) :
    List Str × DB :=
  if claimPaths db rule limit = [] then (claimPaths db rule limit, db)
  else
    (claimPaths db rule limit,
     { db with
        files := db.files.map (claimUpdateRow rule jobId (claimPaths db rule limit)) })

/-- `Store.ReleaseTransferringBackToQueued`. -/
def ReleaseTransferringBackToQueued (db : DB) (jobId : Str) : DB :=
  { db with
      files := db.files.map fun f =>
        if f.jobId = some jobId ∧ f.state = stTransferring then
          { f with state := stQueued, jobId := none }
        else f }

/-- `Store.ClearJobOnDone`. -/
def ClearJobOnDone (db : DB) (jobId : Str) : DB :=
  { db with
      files := db.files.map fun f =>
        if f.jobId = some jobId ∧ f.state = stDone then { f with jobId := none }
        else f }

/-- Modelled from the spec: `Store.FinalizeJobFiles` is called throughout
the sources (worker.go, the recovery path) but its definition is not among
them.  Per the specification (§4.1/§4.7): sets the listed `done_paths` of
the job's files to `done`, and every other file claimed by the job back to
`fallback_state` with the `job_id` cleared and the error message recorded
per file.  (`ClearJobOnDone`, which is in the sources, clears `job_id` on
the `done` rows afterwards; that step is therefore left to it here.) -/
def FinalizeJobFiles (db : DB) (jobId : Str) (donePaths : List Str)
    (fallback : Str) (errMsg : Str) : DB :=
  { db with
      files := db.files.map fun f =>
        if f.jobId = some jobId then
          if f.path ∈ donePaths then { f with state := stDone }
          else { f with state := fallback, jobId := none, lastError := errMsg }
        else f }

/-- Modelled from the spec: `Store.GetJobFilesSize` has no definition in the
sources.  Per the specification (§4.10 step 7): "read job size (sum of
`files.size` for the claimed paths)". -/
def GetJobFilesSize (db : DB) (jobId : Str) : Int :=
  ((db.files.filter fun f => f.jobId = some jobId).map (·.size)).sum

/-- `Store.UpdateJobDone`. -/
def UpdateJobDone (db : DB) (jobId : Str) (now bytesDone : Int) : DB :=
  { db with
      jobs := db.jobs.map fun j =>
        if j.jobId = jobId then
          { j with status := jsDone, endedAt := now, bytesDone := bytesDone }
        else j }

/-- `Store.UpdateJobFailed`. -/
def UpdateJobFailed (db : DB) (jobId : Str) (errMsg : Str) (now bytesDone : Int) : DB :=
  { db with
      jobs := db.jobs.map fun j =>
        if j.jobId = jobId then
          { j with status := jsFailed, endedAt := now, error := errMsg,
                   bytesDone := bytesDone }
        else j }

/-- `Store.UpdateJobTerminated`. -/
def UpdateJobTerminated (db : DB) (jobId : Str) (errMsg : Str) (now bytesDone : Int) : DB :=
  { db with
      jobs := db.jobs.map fun j =>
        if j.jobId = jobId then
          { j with status := jsTerminated, endedAt := now, error := errMsg,
                   bytesDone := bytesDone }
        else j }

/-- `Store.GetLimitGroup`. -/
def GetLimitGroup (db : DB) (name : Str) : Option LimitGroupRow :=
  db.groups.find? fun g => g.name = name

/-- `Store.RuleUsageSince` (part_010): sum of `bytes_done` over the rule's
jobs that are `running`, or ended inside the window. -/
def RuleUsageSince (db : DB) (ruleId : Str) (since : Int) : Int :=
  ((db.jobs.filter fun j =>
      j.ruleId = ruleId ∧
        (j.status = jsRunning ∨ (since ≤ j.endedAt ∧ j.status ≠ jsRunning))).map
    (·.bytesDone)).sum

/-- `Store.GroupUsageSince` (part_010): as `RuleUsageSince`, joined over the
member rules of the group; the empty group name short-circuits to 0. -/
def GroupUsageSince (db : DB) (group : Str) (since : Int) : Int :=
  if group = [] then 0
  else
    ((db.jobs.filter fun j =>
        (db.rules.any fun r => r.id = j.ruleId ∧ r.limitGroup = group) ∧
          (j.status = jsRunning ∨ (since ≤ j.endedAt ∧ j.status ≠ jsRunning))).map
      (·.bytesDone)).sum

/-- `Store.RuleBudgetSince` (part_010): bytes of ended jobs in the window
plus the full `size` of the rule's currently-`transferring` files. -/
def RuleBudgetSince (db : DB) (ruleId : Str) (since : Int) : Int :=
  ((db.jobs.filter fun j =>
      j.ruleId = ruleId ∧ since ≤ j.endedAt ∧ j.status ≠ jsRunning).map
    (·.bytesDone)).sum +
  ((db.files.filter fun f => f.ruleId = ruleId ∧ f.state = stTransferring).map
    (·.size)).sum

/-- `Store.GroupBudgetSince` (part_010). -/
def GroupBudgetSince (db : DB) (group : Str) (since : Int) : Int :=
  if group = [] then 0
  else
    ((db.jobs.filter fun j =>
        (db.rules.any fun r => r.id = j.ruleId ∧ r.limitGroup = group) ∧
          since ≤ j.endedAt ∧ j.status ≠ jsRunning).map
      (·.bytesDone)).sum +
    ((db.files.filter fun f =>
        (db.rules.any fun r => r.id = f.ruleId ∧ r.limitGroup = group) ∧
          f.state = stTransferring).map
      (·.size)).sum

/-! ## Scan upsert (src/internal/store/files.go, `UpsertScanEntries`)

Go compares mod times at nanosecond precision (`time.Since`), the SQL CASE
at second precision (`strftime`); the model uses one integer clock, which
preserves every strict/non-strict boundary the claims are about.  The SQL
stores mod times as RFC3339 text; that format is injective for UTC instants,
so text equality in the CASE is integer equality here. -/

/-- One observed `(path, size, mod_time)`. -/
structure ScanEntry where
  path : Str
  size : Int
  modTime : Int
deriving DecidableEq, Repr

/-- The state a freshly inserted row receives:
`initialState := "new"; if time.Since(e.ModTime) > stableSeconds { "stable" }`. -/
def insertInitialState (now modTime stableSecs : Int) : Str :=
  if stableSecs < now - modTime then stStable else stNew

/-- The `ON CONFLICT ... state=CASE ... END` expression. -/
def upsertConflictState (f : FileRow) (e : ScanEntry) (now stableSecs : Int) : Str :=
  if f.state = stTransferring then f.state
  else if f.state = stQueued then f.state
  else if f.state = stDone ∧ (e.size ≠ f.size ∨ e.modTime ≠ f.modTime) then stNew
  else if e.size = f.size ∧ e.modTime = f.modTime then stStable
  else if stableSecs < now - e.modTime then stStable
  else stNew

/-- One `INSERT ... ON CONFLICT(rule_id, path) DO UPDATE` execution.  The
inserted row carries `seen_size=0, seen_mod_time='', job_id NULL,
fail_count 0, last_error ''` per the VALUES list (the empty `seen_mod_time`
text is the integer 0 here). -/
def UpsertScanEntry (rule : Rule) (now stableSecs : Int) (db : DB) (e : ScanEntry) : DB :=
  if ∃ f ∈ db.files, f.ruleId = rule.id ∧ f.path = e.path then
    { db with
        files := db.files.map fun f =>
          if f.ruleId = rule.id ∧ f.path = e.path then
            { f with
                seenSize := f.size, seenModTime := f.modTime,
                size := e.size, modTime := e.modTime, lastSeen := now,
                state := upsertConflictState f e now stableSecs }
          else f }
  else
    { db with
        files := db.files ++
          [{ ruleId := rule.id, path := e.path, size := e.size,
             modTime := e.modTime,
             state := insertInitialState now e.modTime stableSecs,
             jobId := none, failCount := 0, lastError := [],
             lastSeen := now, seenSize := 0, seenModTime := 0 }] }

/-- `Store.UpsertScanEntries`: the per-scan transaction (negative
`stable_seconds` clamps to 0 first, as in the Go). -/
def UpsertScanEntries (db : DB) (rule : Rule) (now : Int) (entries : List ScanEntry) : DB :=
  let stableSecs := if rule.stableSeconds < 0 then 0 else rule.stableSeconds
  entries.foldl (UpsertScanEntry rule now stableSecs) db

/-! ## Port pool (src/unnamed/part_003, `PortManager`) -/

/-- The port pool.  `stop` is the Go field `end` (a reserved word here);
whether the OS lets a port be bound is the oracle `bindable`. -/
structure PortManager where
  start : Int
  stop : Int
  inUse : List Int
deriving DecidableEq, Repr

/-- `NewPortManager`. -/
def NewPortManager (start stop : Int) : PortManager :=
  let s := if start ≤ 0 then 55720 else start
  let e := if stop < s then s else stop
  { start := s, stop := e, inUse := [] }

/-- The consecutive integers `start, start+1, …` (`n` of them). -/
def intRange (start : Int) : Nat → List Int
  | 0 => []
  | n + 1 => start :: intRange (start + 1) n

/-- `PortManager.Acquire`: scan `for port := p.start; port <= p.end; port++`,
skip in-use ports and ports the bind probe rejects, mark and return the
first survivor; `none` is the "no free rc port in range" error. -/
def PMAcquire (bindable : Int → Bool) (p : PortManager) : Option (Int × PortManager) :=
  match (intRange p.start (p.stop + 1 - p.start).toNat).find?
      (fun q => decide (q ∉ p.inUse) && bindable q) with
  | some q => some (q, { p with inUse := q :: p.inUse })
  | none => none

/-- `PortManager.Release`. -/
def PMRelease (p : PortManager) (port : Int) : PortManager :=
  if port ≤ 0 then p else { p with inUse := p.inUse.filter (· ≠ port) }

/-! ## Job launch admission (src/internal/daemon/worker.go, `startOneJob`
lines 161-255)

The in-memory global limiter and the port pool always admit in this slice
of the embedding (their own behavior is the subject of the port-pool
claims); catalog I/O errors are not modelled (every store call succeeds),
matching the error-free executions the claims quantify over. -/

/-- Where `startOneJob` stops (or proceeds to spawning the child). -/
inductive AdmissionOutcome where
  | noQueued
  | limitReached
  | emptyClaim
  | overBudget (db2 : DB)
  | proceed (paths : List Str) (db1 : DB)
deriving DecidableEq, Repr

/-- The limit `startOneJob` enforces: the limit group's limit if the rule
names one (a missing group degrades to 0 = unlimited, with a log), else the
rule's own `daily_limit_bytes`. -/
def admissionLimitBytes (db : DB) (rule : Rule) : Int :=
  if rule.limitGroup ≠ [] then
    match GetLimitGroup db rule.limitGroup with
    | some lg => lg.dailyLimitBytes
    | none => 0
  else rule.dailyLimitBytes

/-- The `usageFn` of `startOneJob`: the group usage reader when the rule is
grouped, else the rule usage reader — the `*UsageSince` variants, which sum
`bytes_done` (the `*BudgetSince` variants are never called here). -/
def admissionUsage (db : DB) (rule : Rule) (since : Int) : Int :=
  if rule.limitGroup ≠ [] then GroupUsageSince db rule.limitGroup since
  else RuleUsageSince db rule.id since

/-- `startOneJob` up to the point where the child would be spawned: the
queue check, the usage gate, the claim, and the post-claim limit re-check
(which releases the claim when `currentUsage+jobSize > limitBytes`). -/
def startOneJobAdmission (db : DB) (rule : Rule) (jobId : Str) (since : Int) :
    AdmissionOutcome :=
  if ¬ HasQueued db rule.id then .noQueued
  else if 0 < admissionLimitBytes db rule ∧
      admissionLimitBytes db rule ≤ admissionUsage db rule since then .limitReached
  else if (ClaimQueuedForJob db rule jobId rule.batchSize).1 = [] then .emptyClaim
  else if 0 < admissionLimitBytes db rule then
    if admissionLimitBytes db rule <
        admissionUsage (ClaimQueuedForJob db rule jobId rule.batchSize).2 rule since +
          GetJobFilesSize (ClaimQueuedForJob db rule jobId rule.batchSize).2 jobId then
      .overBudget
        (ReleaseTransferringBackToQueued
          (ClaimQueuedForJob db rule jobId rule.batchSize).2 jobId)
    else
      .proceed (ClaimQueuedForJob db rule jobId rule.batchSize).1
        (ClaimQueuedForJob db rule jobId rule.batchSize).2
  else
    .proceed (ClaimQueuedForJob db rule jobId rule.batchSize).1
      (ClaimQueuedForJob db rule jobId rule.batchSize).2

/-! ## Post-exit reconciliation (worker.go, `startOneJob` lines 301-369) -/

/-- How `runWithMetrics` classified the child's exit. -/
inductive ChildOutcome where
  | success
  | failure (err : Str)
  | userTerminated
  | cancelled
deriving DecidableEq, Repr

/-- The `"incomplete: N/M transferred"` message. -/
def incompleteMsg (nDone nTotal : Nat) : Str :=
  "incomplete: ".data ++ (Nat.repr nDone).data ++ "/".data ++
    (Nat.repr nTotal).data ++ " transferred".data

/-- The `donePaths` computation of `startOneJob`: the claimed paths that the
transfer log records as done, in claim order. -/
def donePathsOf (paths logLines : List Str) : List Str :=
  paths.filter (· ∈ transferredPathsFromLog logLines)

/-- `startOneJob` after the child exits: job-row update, per-file
finalization and `job_id` clearing, per the outcome and the transfer log.
(The `LogParseError` branch needs the log file to be unreadable; the
embedding receives its lines, so that branch has no counterpart.) -/
def finalizeAfterExit (db : DB) (jobId : Str) (paths : List Str)
    (outcome : ChildOutcome) (logLines : List Str) (now bytes : Int) : DB :=
  match outcome with
  | .userTerminated =>
      ClearJobOnDone
        (FinalizeJobFiles
          (UpdateJobTerminated db jobId "terminated by user".data now bytes)
          jobId (donePathsOf paths logLines) stQueued []) jobId
  | .cancelled =>
      ClearJobOnDone
        (FinalizeJobFiles
          (UpdateJobTerminated db jobId "terminated".data now bytes)
          jobId (donePathsOf paths logLines) stQueued []) jobId
  | .failure e =>
      ClearJobOnDone
        (FinalizeJobFiles (UpdateJobFailed db jobId e now bytes)
          jobId (donePathsOf paths logLines) stFailed e) jobId
  | .success =>
      if (donePathsOf paths logLines).length ≠ paths.length then
        if donePathsOf paths logLines = [] ∧ logHadNothingToTransfer logLines then
          ClearJobOnDone
            (FinalizeJobFiles (UpdateJobDone db jobId now bytes)
              jobId paths stQueued []) jobId
        else
          ClearJobOnDone
            (FinalizeJobFiles
              (UpdateJobFailed db jobId
                (incompleteMsg (donePathsOf paths logLines).length paths.length)
                now bytes)
              jobId (donePathsOf paths logLines) stQueued []) jobId
      else
        ClearJobOnDone
          (FinalizeJobFiles (UpdateJobDone db jobId now bytes)
            jobId (donePathsOf paths logLines) stQueued []) jobId

/-! ## Crash recovery (src/unnamed/part_004, the log-aware
`RecoverDanglingRuns`, lines 43-124) -/

/-- The jobs UPDATE of recovery: every `running` job becomes `failed` with
error `"daemon restarted"` unless a non-empty error already exists. -/
def recoverJobRow (now : Int) (j : JobRow) : JobRow :=
  if j.status = jsRunning then
    { j with status := jsFailed, endedAt := now,
             error := if j.error = [] then "daemon restarted".data else j.error }
  else j

/-- The `donePaths` of one recovery iteration: the paths of the job's
still-`transferring` rows that its log lists.  (When the parsed set is
empty the Go skips the SELECT and passes nil; filtering against the empty
set yields the same `[]`.) -/
def recoverDonePathsIn (acc : DB) (logOf : Str → List Str) (j : JobRow) : List Str :=
  ((acc.files.filter fun f =>
      f.jobId = some j.jobId ∧ f.state = stTransferring).map (·.path)).filter
    (· ∈ transferredPathsFromLog (logOf j.logPath))

/-- One iteration of the per-job recovery loop: finalize with fallback
`queued`, then clear `job_id` on the completed rows. -/
def recoverStepJob (logOf : Str → List Str) (acc : DB) (j : JobRow) : DB :=
  ClearJobOnDone
    (FinalizeJobFiles acc j.jobId (recoverDonePathsIn acc logOf j) stQueued []) j.jobId

/-- The safety-net UPDATE of recovery: any remaining `transferring` row goes
back to `queued` with `job_id` cleared. -/
def safetyRequeueRow (f : FileRow) : FileRow :=
  if f.state = stTransferring then { f with state := stQueued, jobId := none } else f

/-- `RecoverDanglingRuns`: collect the `running` jobs, mark them all
`failed` (error `"daemon restarted"` unless a non-empty error exists),
reconcile each one's files from its log, then re-queue any remaining
`transferring` row as a safety net. -/
def RecoverDanglingRuns (db : DB) (logOf : Str → List Str) (now : Int) : DB :=
  let running := db.jobs.filter fun j => j.status = jsRunning
  let db1 : DB := { db with jobs := db.jobs.map (recoverJobRow now) }
  let db2 := running.foldl (recoverStepJob logOf) db1
  { db2 with files := db2.files.map safetyRequeueRow }

/-! ## Shared lemmas -/

lemma toNat_ofNat_valid (n : Nat) (h : n < 55296) : (Char.ofNat n).toNat = n := by
  have hv : n.isValidChar := Or.inl h
  rw [Char.ofNat, dif_pos hv]
  simp [Char.ofNatAux, Char.toNat, UInt32.toNat, BitVec.ofNatLt]

lemma toLower_toNat (c : Char) :
    (Char.toLower c).toNat = if 65 ≤ c.toNat ∧ c.toNat ≤ 90 then c.toNat + 32 else c.toNat := by
  unfold Char.toLower
  by_cases h : c.toNat ≥ 65 ∧ c.toNat ≤ 90
  · rw [if_pos h, if_pos h, toNat_ofNat_valid _ (by omega)]
  · rw [if_neg h, if_neg h]

lemma toLower_idem (c : Char) : (Char.toLower c).toLower = Char.toLower c := by
  apply Char.ext
  have h1 := toLower_toNat c
  have h2 := toLower_toNat (Char.toLower c)
  have : (Char.toLower (Char.toLower c)).toNat = (Char.toLower c).toNat := by
    rw [h2, h1]
    by_cases h : 65 ≤ c.toNat ∧ c.toNat ≤ 90
    · simp [h]
      omega
    · simp [h]
  exact UInt32.toNat.inj this

lemma mem_goTrimSpace {c : Char} {s : Str} (h : c ∈ goTrimSpace s) : c ∈ s := by
  unfold goTrimSpace at h
  rw [List.mem_reverse] at h
  have h2 := (List.dropWhile_sublist (l := (s.dropWhile goIsSpace).reverse) goIsSpace).mem h
  rw [List.mem_reverse] at h2
  exact (List.dropWhile_sublist goIsSpace).mem h2

lemma goTrimSpace_cons_of_not_space {c : Char} {l : Str} (h : goIsSpace c = false) :
    goTrimSpace (c :: l) =
      c :: (l.reverse.dropWhile goIsSpace).reverse := by
  unfold goTrimSpace
  rw [List.dropWhile_cons_of_neg (by simp [h]), List.reverse_cons, List.dropWhile_append]
  by_cases he : (l.reverse.dropWhile goIsSpace).isEmpty
  · rw [if_pos he, List.dropWhile_cons_of_neg (by simp [h])]
    rw [List.isEmpty_iff] at he
    simp [he]
  · rw [if_neg he]
    simp

/-! ## C10: `ParseIgnoreExtensions` output shape -/

/-- The normal form the claim asserts of every output element. -/
def extElemOK (t : Str) : Prop :=
  t.head? = some '.' ∧ (∀ c ∈ t, Char.toLower c = c) ∧ ∀ c ∈ t, c ∉ wildcardChars

lemma toLower_notin_wildcard {c : Char} (h : c ∉ wildcardChars) :
    Char.toLower c ∉ wildcardChars := by
  intro hmem
  apply h
  by_cases hu : 65 ≤ c.toNat ∧ c.toNat ≤ 90
  · exfalso
    have ht : (Char.toLower c).toNat = c.toNat + 32 := by rw [toLower_toNat, if_pos hu]
    have : (Char.toLower c).toNat = 42 ∨ (Char.toLower c).toNat = 63 ∨
        (Char.toLower c).toNat = 91 ∨ (Char.toLower c).toNat = 93 := by
      simp only [wildcardChars, List.mem_cons, List.not_mem_nil, or_false] at hmem
      rcases hmem with h | h | h | h <;> rw [h] <;> simp [Char.toNat]
    omega
  · have ht : (Char.toLower c).toNat = c.toNat := by rw [toLower_toNat, if_neg hu]
    have : Char.toLower c = c := Char.ext (UInt32.toNat.inj ht)
    rwa [this] at hmem

lemma mem_goToLower {c : Char} {s : Str} (h : c ∈ goToLower s) :
    ∃ d ∈ s, c = Char.toLower d := by
  unfold goToLower at h
  rcases List.mem_map.mp h with ⟨d, hd, he⟩
  exact ⟨d, hd, he.symm⟩

lemma parseIgnoreExtStep_shape (acc : List Str) (tok : Str) :
    ParseIgnoreExtStep acc tok = acc ∨
      ∃ v, v ∉ acc ∧ ParseIgnoreExtStep acc tok = acc ++ [v] ∧ extElemOK v := by
  unfold ParseIgnoreExtStep
  set tok1 := goTrimSpace tok with htok1
  by_cases h0 : tok1 = []
  · left; simp [h0]
  rw [if_neg h0]
  set t1 := if "*.".data <+: tok1 then tok1.drop 1 else tok1 with ht1
  by_cases h1 : "*".data <+: t1
  · left; simp [h1]
  rw [if_neg h1]
  by_cases h2 : t1.any (fun c => decide (c ∈ wildcardChars))
  · left; simp [h2]
  rw [Bool.not_eq_true] at h2
  rw [h2]
  simp only [Bool.false_eq_true, if_false]
  set t2 := if ".".data <+: t1 then t1 else '.' :: t1 with ht2
  set t3 := goToLower (goTrimSpace t2) with ht3
  by_cases h3 : t3 = ".".data
  · left; simp [h3]
  rw [if_neg h3]
  by_cases h4 : t3 ∈ acc
  · left; simp [h4]
  rw [if_neg h4]
  right
  refine ⟨t3, h4, rfl, ?_, ?_, ?_⟩
  · -- head is '.'
    have hcons : ∃ rest, t2 = '.' :: rest := by
      rw [ht2]
      by_cases hp : ".".data <+: t1
      · rcases hp with ⟨tail, htail⟩
        exact ⟨tail, by rw [if_pos ⟨tail, htail⟩, ← htail]; rfl⟩
      · exact ⟨t1, by rw [if_neg hp]⟩
    rcases hcons with ⟨rest, hrest⟩
    rw [ht3, hrest, goTrimSpace_cons_of_not_space (by decide)]
    rfl
  · intro c hc
    rcases mem_goToLower hc with ⟨d, _, he⟩
    rw [he]
    exact toLower_idem d
  · intro c hc
    rcases mem_goToLower hc with ⟨d, hd, he⟩
    have hd2 : d ∈ t2 := mem_goTrimSpace hd
    have hdok : d ∉ wildcardChars := by
      have ht1ok : ∀ e ∈ t1, e ∉ wildcardChars := by
        intro e he1 habs
        have : t1.any (fun c => decide (c ∈ wildcardChars)) = true :=
          List.any_eq_true.mpr ⟨e, he1, by simpa using habs⟩
        rw [h2] at this
        exact Bool.false_ne_true this
      rw [ht2] at hd2
      by_cases hp : ".".data <+: t1
      · rw [if_pos hp] at hd2
        exact ht1ok d hd2
      · rw [if_neg hp] at hd2
        rcases List.mem_cons.mp hd2 with h | h
        · rw [h]; decide
        · exact ht1ok d h
    rw [he]
    exact toLower_notin_wildcard hdok

lemma foldl_parseIgnoreExtStep_ok (toks : List Str) (acc : List Str)
    (hnd : acc.Nodup) (hok : ∀ t ∈ acc, extElemOK t) :
    (toks.foldl ParseIgnoreExtStep acc).Nodup ∧
      ∀ t ∈ toks.foldl ParseIgnoreExtStep acc, extElemOK t := by
  induction toks generalizing acc with
  | nil => exact ⟨hnd, hok⟩
  | cons tok rest ih =>
      rw [List.foldl_cons]
      rcases parseIgnoreExtStep_shape acc tok with h | ⟨v, hv, he, hvok⟩
      · rw [h]; exact ih acc hnd hok
      · rw [he]
        refine ih (acc ++ [v]) ?_ ?_
        · simp [List.nodup_append, hnd, hv]
        · intro t ht
          rcases List.mem_append.mp ht with h | h
          · exact hok t h
          · rw [List.mem_singleton.mp h]; exact hvok

/-- C10: for every input string, `ParseIgnoreExtensions` returns a
duplicate-free list in which every element starts with `'.'`, is entirely
lowercase (a fixed point of lowering), and contains none of the wildcard
characters `* ? [ ]`; tokens carrying other wildcard uses were dropped,
hence no output element retains one. -/
theorem c10_ignore_extensions_normalized (raw : Str) :
    (ParseIgnoreExtensions raw).Nodup ∧
      ∀ t ∈ ParseIgnoreExtensions raw,
        t.head? = some '.' ∧ (∀ c ∈ t, Char.toLower c = c) ∧
          ∀ c ∈ t, c ∉ wildcardChars := by
  unfold ParseIgnoreExtensions
  by_cases h : goTrimSpace raw = []
  · simp [h]
  · rw [if_neg h]
    exact foldl_parseIgnoreExtStep_ok _ [] List.nodup_nil (by intro t ht; cases ht)

/-- C10 witness: a concrete evaluation through the theorem. -/
theorem c10_ignore_extensions_normalized_witness :
    ".png".data ∈ ParseIgnoreExtensions " .PNG, jpg *.mkv a*b ".data ∧
      ".png".data.head? = some '.' :=
  ⟨by decide,
   ((c10_ignore_extensions_normalized " .PNG, jpg *.mkv a*b ".data).2 _ (by decide)).1⟩

/-! ## C7: the port pool range -/

lemma mem_intRange {q start : Int} {n : Nat} :
    q ∈ intRange start n ↔ start ≤ q ∧ q < start + n := by
  induction n generalizing start with
  | zero => simp [intRange]
  | succ m ih =>
      rw [intRange, List.mem_cons, ih]
      omega

/-- C7 counterexample: the claim bounds a successful acquire by
`start ≤ p < end`, but with `start = end = 7000` and every port bindable
the Go loop (`port <= p.end`) hands out port 7000 itself: the range is
closed, not half-open. -/
theorem c7_counterexample :
    PMAcquire (fun _ => true) { start := 7000, stop := 7000, inUse := [] } =
        some (7000, { start := 7000, stop := 7000, inUse := [7000] }) ∧
      ¬ (7000 : Int) < 7000 := by
  constructor
  · rfl
  · decide

/-- C7 (amended): `acquire` scans the closed range `[start, end]`; a
successful acquire returns a port `p` with `start ≤ p ≤ end` that was not
in use and passed the bind probe, and marks it in use; acquire fails
exactly when every port of `[start, end]` is in use or unbindable;
`release(port)` removes the port from the in-use set (non-positive ports
are ignored). -/
theorem c7_port_pool_behavior (p : PortManager) (bindable : Int → Bool) :
    (∀ q pm2, PMAcquire bindable p = some (q, pm2) →
        p.start ≤ q ∧ q ≤ p.stop ∧ q ∉ p.inUse ∧ bindable q = true ∧
          pm2 = { p with inUse := q :: p.inUse }) ∧
      (PMAcquire bindable p = none →
        ∀ q : Int, p.start ≤ q → q ≤ p.stop → q ∈ p.inUse ∨ bindable q = false) ∧
      ∀ port : Int, 0 < port →
        PMRelease p port = { p with inUse := p.inUse.filter (· ≠ port) } := by
  refine ⟨?_, ?_, ?_⟩
  · intro q pm2 h
    unfold PMAcquire at h
    rcases hf : (intRange p.start (p.stop + 1 - p.start).toNat).find?
        (fun q => decide (q ∉ p.inUse) && bindable q) with _ | q0
    · rw [hf] at h; cases h
    · rw [hf] at h
      injection h with h
      injection h with h1 h2
      subst h1
      have hmem := mem_intRange.mp (List.mem_of_find?_eq_some hf)
      have hpred := List.find?_some hf
      rw [Bool.and_eq_true, decide_eq_true_eq] at hpred
      exact ⟨hmem.1, by omega, hpred.1, hpred.2, h2.symm⟩
  · intro h q h1 h2
    unfold PMAcquire at h
    rcases hf : (intRange p.start (p.stop + 1 - p.start).toNat).find?
        (fun q => decide (q ∉ p.inUse) && bindable q) with _ | q0
    · have hq := List.find?_eq_none.mp hf q (mem_intRange.mpr ⟨h1, by omega⟩)
      rw [Bool.and_eq_true, decide_eq_true_eq] at hq
      by_cases hmem : q ∈ p.inUse
      · exact Or.inl hmem
      · right
        rcases Bool.eq_false_or_eq_true (bindable q) with hb | hb
        · exact absurd ⟨hmem, hb⟩ hq
        · exact hb
    · rw [hf] at h; cases h
  · intro port hpos
    unfold PMRelease
    rw [if_neg (by omega)]

/-- C7 witness: acquiring from `[7005, 7010]` with 7005 in use and 7005
unbindable yields 7006, inside the closed range. -/
theorem c7_port_pool_behavior_witness :
    (7005 : Int) ≤ 7006 ∧ (7006 : Int) ≤ 7010 := by
  have h := (c7_port_pool_behavior { start := 7005, stop := 7010, inUse := [7005] }
      (fun q => decide (q ≠ 7005))).1 7006
      { start := 7005, stop := 7010, inUse := [7006, 7005] } (by decide)
  exact ⟨h.1, h.2.1⟩

/-! ## C9: size-literal overflow guard -/

/-- C9: the claim (and the code's own `"size too large"` guard) wants every
value overflowing int64 rejected, but the guard compares against
`float64(math.MaxInt64)`, which rounds `2^63 - 1` up to `2^63`.  The
literal `"8E"` denotes `8·1024^6 = 2^63`, one past `math.MaxInt64`: the
guard lets it through and `int64(v + 0.5)` overflows, so `parseSizeBytes`
returns success (with an implementation-defined wrapped value —
`math.MinInt64` on amd64/arm64) instead of a *ConfigError*. -/
theorem c9_overflow_guard_off_by_one :
    (parseSizeBytes "8E".data).isOk = true ∧ ((2 : Int) ^ 63 - 1) < 8 * 1024 ^ 6 := by
  refine ⟨by decide, by decide⟩

/-! ## C6: state of freshly inserted scan entries -/

/-- C6 counterexample: with `stable_seconds = 0` and an entry whose
`mod_time` equals `now`, the claim wants the inserted state `stable`; the
code's strict `time.Since(mod) > 0` test fails and inserts `new`. -/
theorem c6_counterexample :
    ((UpsertScanEntries { files := [], jobs := [], rules := [], groups := [] }
          { id := "r".data, batchSize := 1, dailyLimitBytes := 0, limitGroup := [],
            stableSeconds := 0 }
          100 [{ path := "a".data, size := 1, modTime := 100 }]).files.map (·.state)) =
        [stNew] ∧ stNew ≠ stStable := by
  refine ⟨?_, by decide⟩
  rfl

/-- C6 (amended): a scan entry with no prior `(rule_id, path)` row is
appended with state `stable` if `now − mod_time` strictly exceeds the
(negative-clamped) `stable_seconds`, and `new` otherwise; in particular,
with `stable_seconds = 0` an entry is `stable` exactly when its `mod_time`
is strictly in the past — one whose `mod_time` equals or exceeds `now` is
inserted `new`. -/
theorem c6_insert_state (db : DB) (rule : Rule) (now : Int) (e : ScanEntry)
    (habs : ∀ f ∈ db.files, ¬(f.ruleId = rule.id ∧ f.path = e.path)) :
    (UpsertScanEntries db rule now [e]).files =
      db.files ++
        [{ ruleId := rule.id, path := e.path, size := e.size, modTime := e.modTime,
           state :=
             if (if rule.stableSeconds < 0 then 0 else rule.stableSeconds) < now - e.modTime
             then stStable else stNew,
           jobId := none, failCount := 0, lastError := [], lastSeen := now,
           seenSize := 0, seenModTime := 0 }] := by
  have hne : ¬ ∃ f ∈ db.files, f.ruleId = rule.id ∧ f.path = e.path := by
    rintro ⟨f, hf, hc⟩
    exact habs f hf hc
  unfold UpsertScanEntries
  rw [List.foldl_cons, List.foldl_nil]
  unfold UpsertScanEntry
  rw [if_neg hne]
  simp [insertInitialState]

/-- C6 witness: inserting `(path a, mod_time 50)` at `now = 100` under
`stable_seconds = 0` yields a single `stable` row. -/
theorem c6_insert_state_witness :
    (UpsertScanEntries { files := [], jobs := [], rules := [], groups := [] }
        { id := "r".data, batchSize := 1, dailyLimitBytes := 0, limitGroup := [],
          stableSeconds := 0 }
        100 [{ path := "a".data, size := 1, modTime := 50 }]).files =
      [{ ruleId := "r".data, path := "a".data, size := 1, modTime := 50,
         state := stStable, jobId := none, failCount := 0, lastError := [],
         lastSeen := 100, seenSize := 0, seenModTime := 0 }] := by
  have h := c6_insert_state { files := [], jobs := [], rules := [], groups := [] }
      { id := "r".data, batchSize := 1, dailyLimitBytes := 0, limitGroup := [],
        stableSeconds := 0 }
      100 { path := "a".data, size := 1, modTime := 50 } (by decide)
  simpa using h

/-! ## C5: the claim transaction -/

lemma insertByLastSeenDesc_perm (f : FileRow) (l : List FileRow) :
    List.Perm (insertByLastSeenDesc f l) (f :: l) := by
  induction l with
  | nil => rfl
  | cons g gs ih =>
      rw [insertByLastSeenDesc]
      by_cases h : g.lastSeen ≤ f.lastSeen
      · rw [if_pos h]
      · rw [if_neg h]
        exact (List.Perm.cons g ih).trans (List.Perm.swap f g gs)

lemma sortByLastSeenDesc_perm (l : List FileRow) :
    List.Perm (sortByLastSeenDesc l) l := by
  induction l with
  | nil => rfl
  | cons g gs ih =>
      exact (insertByLastSeenDesc_perm g (sortByLastSeenDesc gs)).trans
        (List.Perm.cons g ih)

lemma mem_sortByLastSeenDesc {f : FileRow} {l : List FileRow} :
    f ∈ sortByLastSeenDesc l ↔ f ∈ l :=
  (sortByLastSeenDesc_perm l).mem_iff

lemma claimQueued_fst (db : DB) (rule : Rule) (jobId : Str) (limit : Int) :
    (ClaimQueuedForJob db rule jobId limit).1 = claimPaths db rule limit := by
  unfold ClaimQueuedForJob
  by_cases hp : claimPaths db rule limit = []
  · rw [if_pos hp]
  · rw [if_neg hp]

lemma claimQueued_snd (db : DB) (rule : Rule) (jobId : Str) (limit : Int) :
    (ClaimQueuedForJob db rule jobId limit).2 =
      { db with
          files := db.files.map (claimUpdateRow rule jobId (claimPaths db rule limit)) } := by
  unfold ClaimQueuedForJob
  by_cases hp : claimPaths db rule limit = []
  · rw [if_pos hp]
    show db = _
    have hmap : db.files.map (claimUpdateRow rule jobId (claimPaths db rule limit)) =
        db.files := by
      rw [hp]
      have hid : ∀ f0 ∈ db.files, claimUpdateRow rule jobId [] f0 = id f0 := by
        intro f0 _
        unfold claimUpdateRow
        rw [if_neg (by simp)]
        rfl
      rw [List.map_congr_left hid, List.map_id]
    rw [hmap]
  · rw [if_neg hp]

lemma claimPaths_of_pos (db : DB) (rule : Rule) {limit : Int} (hlim : 1 ≤ limit) :
    claimPaths db rule limit = (claimSelPaths db rule).take limit.toNat := by
  unfold claimPaths claimLimit
  rw [if_neg (by omega : ¬ limit ≤ 0), if_neg (by omega : ¬ limit < 0)]

lemma mem_claimPaths_row {db0 : DB} {rule : Rule} {lim : Int} {p : Str}
    (hp : p ∈ claimPaths db0 rule lim) :
    ∃ f ∈ db0.files,
      f.ruleId = rule.id ∧ f.path = p ∧ f.state = stQueued ∧ jobIdFree f.jobId := by
  have hall : p ∈ claimSelPaths db0 rule := by
    unfold claimPaths at hp
    by_cases h : claimLimit rule lim < 0
    · rwa [if_pos h] at hp
    · rw [if_neg h] at hp
      exact List.mem_of_mem_take hp
  unfold claimSelPaths at hall
  rcases List.mem_map.mp hall with ⟨f, hf, hfp⟩
  rw [mem_sortByLastSeenDesc, List.mem_filter] at hf
  rcases hf with ⟨hmem, hcond⟩
  rw [decide_eq_true_eq] at hcond
  exact ⟨f, hmem, hcond.1, hfp, hcond.2.1, hcond.2.2⟩

/-- C5 counterexample: a call with `n = 0` must, per the claim, return at
most 0 paths; the code substitutes `rule.batch_size` for a non-positive
limit and returns one path. -/
theorem c5_counterexample :
    (ClaimQueuedForJob
        { files := [{ ruleId := "r".data, path := "a".data, size := 1, modTime := 0,
                      state := stQueued, jobId := none, failCount := 0, lastError := [],
                      lastSeen := 0, seenSize := 0, seenModTime := 0 }],
          jobs := [], rules := [], groups := [] }
        { id := "r".data, batchSize := 1, dailyLimitBytes := 0, limitGroup := [],
          stableSeconds := 0 }
        "j1".data 0).1.length = 1 ∧ ¬ (1 : Nat) ≤ 0 := by
  refine ⟨by decide, by decide⟩

/-- C5 (amended): for every limit `n ≥ 1` (calls with `n ≤ 0` fall back to
the rule's `batch_size`), `claim_queued` returns at most `n` paths, each of
which belonged to a row of the rule that was `queued` with null-or-empty
`job_id` immediately before the call; the transaction rewrites exactly the
rule's queued rows carrying a returned path to `transferring` tagged with
`job_id` and leaves every other row intact; and a second claim run on the
resulting catalog can never return a path of the first. -/
theorem c5_claim_queued (db : DB) (rule : Rule) (jobId : Str) (limit : Int)
    (hlim : 1 ≤ limit) :
    ((ClaimQueuedForJob db rule jobId limit).1.length : Int) ≤ limit ∧
      (∀ p ∈ (ClaimQueuedForJob db rule jobId limit).1,
        ∃ f ∈ db.files,
          f.ruleId = rule.id ∧ f.path = p ∧ f.state = stQueued ∧ jobIdFree f.jobId) ∧
      (ClaimQueuedForJob db rule jobId limit).2 =
        { db with
            files := db.files.map
              (claimUpdateRow rule jobId (ClaimQueuedForJob db rule jobId limit).1) } ∧
      ∀ jobId2 limit2 p,
        p ∈ (ClaimQueuedForJob (ClaimQueuedForJob db rule jobId limit).2 rule jobId2
              limit2).1 →
          p ∉ (ClaimQueuedForJob db rule jobId limit).1 := by
  refine ⟨?_, ?_, ?_, ?_⟩
  · rw [claimQueued_fst, claimPaths_of_pos db rule hlim]
    have h := List.length_take_le limit.toNat (claimSelPaths db rule)
    omega
  · intro p hp
    rw [claimQueued_fst] at hp
    exact mem_claimPaths_row hp
  · rw [claimQueued_fst]
    exact claimQueued_snd db rule jobId limit
  · intro jobId2 limit2 p hp2 hp1
    rw [claimQueued_fst] at hp2 hp1
    rcases mem_claimPaths_row hp2 with ⟨f1, hf1mem, hf1rule, hf1path, hf1state, _⟩
    rw [claimQueued_snd] at hf1mem
    rcases List.mem_map.mp hf1mem with ⟨f0, _, hup⟩
    unfold claimUpdateRow at hup
    by_cases hc : f0.ruleId = rule.id ∧ f0.path ∈ claimPaths db rule limit ∧
        f0.state = stQueued
    · rw [if_pos hc] at hup
      have hst : f1.state = stTransferring := by rw [← hup]
      rw [hf1state] at hst
      exact absurd hst.symm (by decide)
    · rw [if_neg hc] at hup
      apply hc
      rw [hup]
      exact ⟨hf1rule, by rw [hf1path]; exact hp1, hf1state⟩

/-- C5 witness: a concrete single-row claim with limit 1. -/
theorem c5_claim_queued_witness :
    ((ClaimQueuedForJob
        { files := [{ ruleId := "r".data, path := "a".data, size := 1, modTime := 0,
                      state := stQueued, jobId := none, failCount := 0, lastError := [],
                      lastSeen := 0, seenSize := 0, seenModTime := 0 }],
          jobs := [], rules := [], groups := [] }
        { id := "r".data, batchSize := 5, dailyLimitBytes := 0, limitGroup := [],
          stableSeconds := 0 }
        "j1".data 1).1.length : Int) ≤ 1 :=
  (c5_claim_queued
    { files := [{ ruleId := "r".data, path := "a".data, size := 1, modTime := 0,
                  state := stQueued, jobId := none, failCount := 0, lastError := [],
                  lastSeen := 0, seenSize := 0, seenModTime := 0 }],
      jobs := [], rules := [], groups := [] }
    { id := "r".data, batchSize := 5, dailyLimitBytes := 0, limitGroup := [],
      stableSeconds := 0 }
    "j1".data 1 (by decide)).1

/-! ## The finalize-then-clear composition shared by C1, C3 and C4 -/

/-- The net per-row effect of `FinalizeJobFiles … ; ClearJobOnDone …` on the
rows of the job: listed paths end `done` with `job_id` cleared, the rest end
in the fallback state with `job_id` cleared and the error recorded. -/
def finClearRow (jobId : Str) (donePaths : List Str) (fallback errMsg : Str)
    (f : FileRow) : FileRow :=
  if f.jobId = some jobId then
    if f.path ∈ donePaths then { f with state := stDone, jobId := none }
    else { f with state := fallback, jobId := none, lastError := errMsg }
  else f

lemma clear_finalize_eq (db : DB) (jobId : Str) (donePaths : List Str)
    (fallback errMsg : Str) :
    ClearJobOnDone (FinalizeJobFiles db jobId donePaths fallback errMsg) jobId =
      { db with files := db.files.map (finClearRow jobId donePaths fallback errMsg) } := by
  unfold ClearJobOnDone FinalizeJobFiles
  congr 1
  rw [List.map_map]
  refine List.map_congr_left ?_
  intro f _
  unfold finClearRow
  by_cases h1 : f.jobId = some jobId
  · by_cases h2 : f.path ∈ donePaths
    · simp [h1, h2]
    · simp [h1, h2]
  · simp [h1]

/-! ## C1: disposition after a child failure -/

/-- C1 counterexample: job `j` claimed `a` and `b`; the log lists only `a`;
the child fails.  The claim returns `b` to `queued`; the code passes
fallback `"failed"` to `finalize_job_files`, so `b` ends `failed`. -/
theorem c1_counterexample :
    ((finalizeAfterExit
        { files :=
            [{ ruleId := "r".data, path := "a".data, size := 1, modTime := 0,
               state := stTransferring, jobId := some "j".data, failCount := 0,
               lastError := [], lastSeen := 0, seenSize := 0, seenModTime := 0 },
             { ruleId := "r".data, path := "b".data, size := 2, modTime := 0,
               state := stTransferring, jobId := some "j".data, failCount := 0,
               lastError := [], lastSeen := 0, seenSize := 0, seenModTime := 0 }],
          jobs := [{ jobId := "j".data, ruleId := "r".data, transferMode := "copy".data,
                     rcPort := 0, startedAt := 0, endedAt := 0, status := jsRunning,
                     bytesDone := 0, error := [], logPath := "l".data }],
          rules := [], groups := [] }
        "j".data ["a".data, "b".data] (.failure "boom".data)
        ["2025/01/01 00:00:00 INFO  : a : Copied (new)".data] 50 7).files.map
      (·.state)) = [stDone, stFailed] ∧ stFailed ≠ stQueued := by
  refine ⟨by decide, by decide⟩

/-- C1 (amended): on a child failure (`ChildFailure`) the executor marks the
job `failed` with the stderr-or-exit error, sets the claimed paths found in
the transfer log to `done` with `job_id` cleared, and sets every other path
of the job to `failed` — not `queued` — with `job_id` cleared and the error
recorded per file (the call passes fallback state `"failed"`); such paths
re-enter the queue only through `retry_failed`. -/
theorem c1_child_failure_disposition (db : DB) (jobId : Str) (paths : List Str)
    (e : Str) (lines : List Str) (now bytes : Int) :
    finalizeAfterExit db jobId paths (.failure e) lines now bytes =
      { db with
          jobs := db.jobs.map fun j =>
            if j.jobId = jobId then
              { j with status := jsFailed, endedAt := now, error := e,
                       bytesDone := bytes }
            else j,
          files := db.files.map
            (finClearRow jobId (donePathsOf paths lines) stFailed e) } := by
  show ClearJobOnDone (FinalizeJobFiles (UpdateJobFailed db jobId e now bytes) jobId
      (donePathsOf paths lines) stFailed e) jobId = _
  rw [clear_finalize_eq]
  rfl

/-! ## C3: success with an incomplete log -/

/-- C3 counterexample: the child exits 0, the log lists `a` of the claimed
`a, b` and also carries the nothing-to-transfer marker.  The claim
(`|done_paths| < |paths|` and a marker suffice) wants the job `done`; the
code additionally requires `|done_paths| = 0`, so it takes the incomplete
branch and fails the job. -/
theorem c3_counterexample :
    ((finalizeAfterExit
        { files :=
            [{ ruleId := "r".data, path := "a".data, size := 1, modTime := 0,
               state := stTransferring, jobId := some "j".data, failCount := 0,
               lastError := [], lastSeen := 0, seenSize := 0, seenModTime := 0 },
             { ruleId := "r".data, path := "b".data, size := 2, modTime := 0,
               state := stTransferring, jobId := some "j".data, failCount := 0,
               lastError := [], lastSeen := 0, seenSize := 0, seenModTime := 0 }],
          jobs := [{ jobId := "j".data, ruleId := "r".data, transferMode := "copy".data,
                     rcPort := 0, startedAt := 0, endedAt := 0, status := jsRunning,
                     bytesDone := 0, error := [], logPath := "l".data }],
          rules := [], groups := [] }
        "j".data ["a".data, "b".data] .success
        ["2025/01/01 00:00:00 INFO  : a : Copied (new)".data,
         "2025/01/01 00:00:01 NOTICE: There was nothing to transfer".data] 50 7).jobs.map
      (·.status)) = [jsFailed] ∧ jsFailed ≠ jsDone := by
  refine ⟨by decide, by decide⟩

/-- C3 (amended): when the child exits successfully, the transfer log lists
none of the claimed paths (`|done_paths| = 0`, not merely
`|done_paths| < |paths|`), at least one path was claimed, and the log
carries a nothing-to-transfer marker, the job is finalized `done` and every
claimed path of the job transitions to `done` with `job_id` cleared (other
rows of the job fall back to `queued`). -/
theorem c3_nothing_to_transfer (db : DB) (jobId : Str) (paths : List Str)
    (lines : List Str) (now bytes : Int)
    (hne : paths ≠ [])
    (hnone : donePathsOf paths lines = [])
    (hmark : logHadNothingToTransfer lines = true) :
    finalizeAfterExit db jobId paths .success lines now bytes =
      { db with
          jobs := db.jobs.map fun j =>
            if j.jobId = jobId then
              { j with status := jsDone, endedAt := now, bytesDone := bytes }
            else j,
          files := db.files.map (finClearRow jobId paths stQueued []) } := by
  show (if (donePathsOf paths lines).length ≠ paths.length then _ else _) = _
  rw [hnone]
  rw [if_pos ?_, if_pos ⟨rfl, hmark⟩]
  · rw [clear_finalize_eq]
    rfl
  · simp only [List.length_nil]
    intro hlen
    exact hne (List.length_eq_zero.mp hlen.symm)

/-! ## C2: the budgeted re-check -/

/-- Whether the admission outcome spawns the child. -/
def AdmissionOutcome.isProceed : AdmissionOutcome → Bool
  | .proceed _ _ => true
  | _ => false

/-- C2 counterexample: rule `r` has `daily_limit_bytes = 10`; another job of
the rule is `running` with `bytes_done = 0` and a `transferring` file of
size 100; one queued file of size 5 is claimed.  Under the claim's re-check
(usage *including in-flight reservations*, i.e. the budget readers that
count `transferring` sizes) `100 + 5 > 10` forces a release — but the code
re-checks with `RuleUsageSince` (`bytes_done` only), sees `0 + 5 ≤ 10`, and
proceeds to spawn the child. -/
theorem c2_counterexample :
    (startOneJobAdmission
        { files :=
            [{ ruleId := "r".data, path := "x".data, size := 100, modTime := 0,
               state := stTransferring, jobId := some "J0".data, failCount := 0,
               lastError := [], lastSeen := 0, seenSize := 0, seenModTime := 0 },
             { ruleId := "r".data, path := "a".data, size := 5, modTime := 0,
               state := stQueued, jobId := none, failCount := 0, lastError := [],
               lastSeen := 0, seenSize := 0, seenModTime := 0 }],
          jobs := [{ jobId := "J0".data, ruleId := "r".data,
                     transferMode := "copy".data, rcPort := 0, startedAt := 0,
                     endedAt := 0, status := jsRunning, bytesDone := 0, error := [],
                     logPath := "l".data }],
          rules := [], groups := [] }
        { id := "r".data, batchSize := 3, dailyLimitBytes := 10, limitGroup := [],
          stableSeconds := 0 }
        "J1".data 0).isProceed = true ∧
      (10 : Int) <
        RuleBudgetSince
          { files :=
              [{ ruleId := "r".data, path := "x".data, size := 100, modTime := 0,
                 state := stTransferring, jobId := some "J0".data, failCount := 0,
                 lastError := [], lastSeen := 0, seenSize := 0, seenModTime := 0 },
               { ruleId := "r".data, path := "a".data, size := 5, modTime := 0,
                 state := stQueued, jobId := none, failCount := 0, lastError := [],
                 lastSeen := 0, seenSize := 0, seenModTime := 0 }],
            jobs := [{ jobId := "J0".data, ruleId := "r".data,
                       transferMode := "copy".data, rcPort := 0, startedAt := 0,
                       endedAt := 0, status := jsRunning, bytesDone := 0, error := [],
                       logPath := "l".data }],
            rules := [], groups := [] }
          "r".data 0 + 5 := by
  refine ⟨by decide, by decide⟩

/-- C2 (amended): the post-claim re-check compares the limit against
`current usage + job size` where the usage is re-read through
`RuleUsageSince`/`GroupUsageSince` — the `bytes_done` readers, *not* the
budget variants that count the size of `transferring` files (those exist in
the store but are never called by the worker).  When that comparison
exceeds the limit the claim is released back to `queued` with `job_id`
cleared and no child is started; otherwise the claimed paths proceed. -/
theorem c2_recheck_gates_on_usage (db : DB) (rule : Rule) (jobId : Str) (since : Int) :
    (∀ db2, startOneJobAdmission db rule jobId since = .overBudget db2 →
        admissionLimitBytes db rule <
            admissionUsage (ClaimQueuedForJob db rule jobId rule.batchSize).2 rule since +
              GetJobFilesSize (ClaimQueuedForJob db rule jobId rule.batchSize).2 jobId ∧
          db2 = ReleaseTransferringBackToQueued
              (ClaimQueuedForJob db rule jobId rule.batchSize).2 jobId ∧
          ∀ p ∈ (ClaimQueuedForJob db rule jobId rule.batchSize).1,
            ∃ f ∈ db2.files,
              f.ruleId = rule.id ∧ f.path = p ∧ f.state = stQueued ∧ f.jobId = none) ∧
      ∀ paths db1, startOneJobAdmission db rule jobId since = .proceed paths db1 →
        0 < admissionLimitBytes db rule →
          admissionUsage db1 rule since + GetJobFilesSize db1 jobId ≤
            admissionLimitBytes db rule := by
  constructor
  · intro db2 h
    by_cases h0 : ¬ HasQueued db rule.id
    · rw [startOneJobAdmission, if_pos h0] at h
      exact AdmissionOutcome.noConfusion h
    rw [startOneJobAdmission, if_neg h0] at h
    by_cases h1 : 0 < admissionLimitBytes db rule ∧
        admissionLimitBytes db rule ≤ admissionUsage db rule since
    · rw [if_pos h1] at h
      exact AdmissionOutcome.noConfusion h
    rw [if_neg h1] at h
    by_cases h2 : (ClaimQueuedForJob db rule jobId rule.batchSize).1 = []
    · rw [if_pos h2] at h
      exact AdmissionOutcome.noConfusion h
    rw [if_neg h2] at h
    by_cases h3 : 0 < admissionLimitBytes db rule
    · rw [if_pos h3] at h
      by_cases h4 : admissionLimitBytes db rule <
          admissionUsage (ClaimQueuedForJob db rule jobId rule.batchSize).2 rule since +
            GetJobFilesSize (ClaimQueuedForJob db rule jobId rule.batchSize).2 jobId
      · rw [if_pos h4] at h
        injection h with hdb2
        subst hdb2
        refine ⟨h4, rfl, ?_⟩
        intro p hp
        rw [claimQueued_fst] at hp
        rcases mem_claimPaths_row hp with ⟨f0, hf0mem, hf0rule, hf0path, hf0state, _⟩
        have hcond : f0.ruleId = rule.id ∧
            f0.path ∈ claimPaths db rule rule.batchSize ∧ f0.state = stQueued :=
          ⟨hf0rule, by rw [hf0path]; exact hp, hf0state⟩
        have hmem1 : claimUpdateRow rule jobId (claimPaths db rule rule.batchSize) f0 ∈
            (ClaimQueuedForJob db rule jobId rule.batchSize).2.files := by
          rw [claimQueued_snd]
          exact List.mem_map_of_mem _ hf0mem
        have hrow : claimUpdateRow rule jobId (claimPaths db rule rule.batchSize) f0 =
            { f0 with state := stTransferring, jobId := some jobId } := by
          unfold claimUpdateRow
          rw [if_pos hcond]
        refine ⟨{ f0 with state := stQueued, jobId := none },
          List.mem_map.mpr ⟨_, hmem1, ?_⟩, hf0rule, hf0path, rfl, rfl⟩
        rw [hrow]
        rw [if_pos ⟨rfl, rfl⟩]
      · rw [if_neg h4] at h
        exact AdmissionOutcome.noConfusion h
    · rw [if_neg h3] at h
      exact AdmissionOutcome.noConfusion h
  · intro paths db1 h hpos
    by_cases h0 : ¬ HasQueued db rule.id
    · rw [startOneJobAdmission, if_pos h0] at h
      exact AdmissionOutcome.noConfusion h
    rw [startOneJobAdmission, if_neg h0] at h
    by_cases h1 : 0 < admissionLimitBytes db rule ∧
        admissionLimitBytes db rule ≤ admissionUsage db rule since
    · rw [if_pos h1] at h
      exact AdmissionOutcome.noConfusion h
    rw [if_neg h1] at h
    by_cases h2 : (ClaimQueuedForJob db rule jobId rule.batchSize).1 = []
    · rw [if_pos h2] at h
      exact AdmissionOutcome.noConfusion h
    rw [if_neg h2] at h
    by_cases h3 : 0 < admissionLimitBytes db rule
    · rw [if_pos h3] at h
      by_cases h4 : admissionLimitBytes db rule <
          admissionUsage (ClaimQueuedForJob db rule jobId rule.batchSize).2 rule since +
            GetJobFilesSize (ClaimQueuedForJob db rule jobId rule.batchSize).2 jobId
      · rw [if_pos h4] at h
        exact AdmissionOutcome.noConfusion h
      · rw [if_neg h4] at h
        injection h with hpaths hdb1
        rw [← hdb1]
        omega
    · rw [if_neg h3] at h
      exact absurd hpos h3

/-- C2 witness: limit 10, a running job with `bytes_done = 8`, a claimed
file of size 5 — the re-check trips (`8 + 5 > 10`) through the theorem. -/
theorem c2_recheck_gates_on_usage_witness :
    admissionLimitBytes
        { files := [{ ruleId := "r".data, path := "a".data, size := 5, modTime := 0,
                      state := stQueued, jobId := none, failCount := 0, lastError := [],
                      lastSeen := 0, seenSize := 0, seenModTime := 0 }],
          jobs := [{ jobId := "J0".data, ruleId := "r".data,
                     transferMode := "copy".data, rcPort := 0, startedAt := 0,
                     endedAt := 0, status := jsRunning, bytesDone := 8, error := [],
                     logPath := "l".data }],
          rules := [], groups := [] }
        { id := "r".data, batchSize := 3, dailyLimitBytes := 10, limitGroup := [],
          stableSeconds := 0 } <
      admissionUsage
          (ClaimQueuedForJob
            { files := [{ ruleId := "r".data, path := "a".data, size := 5, modTime := 0,
                          state := stQueued, jobId := none, failCount := 0,
                          lastError := [], lastSeen := 0, seenSize := 0,
                          seenModTime := 0 }],
              jobs := [{ jobId := "J0".data, ruleId := "r".data,
                         transferMode := "copy".data, rcPort := 0, startedAt := 0,
                         endedAt := 0, status := jsRunning, bytesDone := 8, error := [],
                         logPath := "l".data }],
              rules := [], groups := [] }
            { id := "r".data, batchSize := 3, dailyLimitBytes := 10, limitGroup := [],
              stableSeconds := 0 }
            "J1".data 3).2
          { id := "r".data, batchSize := 3, dailyLimitBytes := 10, limitGroup := [],
            stableSeconds := 0 } 0 +
        GetJobFilesSize
          (ClaimQueuedForJob
            { files := [{ ruleId := "r".data, path := "a".data, size := 5, modTime := 0,
                          state := stQueued, jobId := none, failCount := 0,
                          lastError := [], lastSeen := 0, seenSize := 0,
                          seenModTime := 0 }],
              jobs := [{ jobId := "J0".data, ruleId := "r".data,
                         transferMode := "copy".data, rcPort := 0, startedAt := 0,
                         endedAt := 0, status := jsRunning, bytesDone := 8, error := [],
                         logPath := "l".data }],
              rules := [], groups := [] }
            { id := "r".data, batchSize := 3, dailyLimitBytes := 10, limitGroup := [],
              stableSeconds := 0 }
            "J1".data 3).2 "J1".data :=
  ((c2_recheck_gates_on_usage
      { files := [{ ruleId := "r".data, path := "a".data, size := 5, modTime := 0,
                    state := stQueued, jobId := none, failCount := 0, lastError := [],
                    lastSeen := 0, seenSize := 0, seenModTime := 0 }],
        jobs := [{ jobId := "J0".data, ruleId := "r".data, transferMode := "copy".data,
                   rcPort := 0, startedAt := 0, endedAt := 0, status := jsRunning,
                   bytesDone := 8, error := [], logPath := "l".data }],
        rules := [], groups := [] }
      { id := "r".data, batchSize := 3, dailyLimitBytes := 10, limitGroup := [],
        stableSeconds := 0 }
      "J1".data 0).1
    (ReleaseTransferringBackToQueued
      (ClaimQueuedForJob
        { files := [{ ruleId := "r".data, path := "a".data, size := 5, modTime := 0,
                      state := stQueued, jobId := none, failCount := 0, lastError := [],
                      lastSeen := 0, seenSize := 0, seenModTime := 0 }],
          jobs := [{ jobId := "J0".data, ruleId := "r".data,
                     transferMode := "copy".data, rcPort := 0, startedAt := 0,
                     endedAt := 0, status := jsRunning, bytesDone := 8, error := [],
                     logPath := "l".data }],
          rules := [], groups := [] }
        { id := "r".data, batchSize := 3, dailyLimitBytes := 10, limitGroup := [],
          stableSeconds := 0 }
        "J1".data 3).2 "J1".data)
    (by decide)).1

/-! ## C4: crash recovery -/

lemma recoverStep_eq (logOf : Str → List Str) (acc : DB) (j : JobRow) :
    recoverStepJob logOf acc j =
      { acc with
          files := acc.files.map
            (finClearRow j.jobId (recoverDonePathsIn acc logOf j) stQueued []) } := by
  unfold recoverStepJob
  exact clear_finalize_eq acc j.jobId (recoverDonePathsIn acc logOf j) stQueued []

lemma finClearRow_foreign {jobId : Str} {donePaths : List Str} {fb em : Str}
    {f : FileRow} (h : f.jobId ≠ some jobId) :
    finClearRow jobId donePaths fb em f = f := by
  unfold finClearRow
  rw [if_neg h]

lemma finClearRow_own_none {jobId : Str} {donePaths : List Str} {fb em : Str}
    {f : FileRow} (h : f.jobId = some jobId) :
    (finClearRow jobId donePaths fb em f).jobId = none := by
  unfold finClearRow
  rw [if_pos h]
  by_cases h2 : f.path ∈ donePaths
  · rw [if_pos h2]
  · rw [if_neg h2]

lemma filter_map_eq {α : Type} (p : α → Bool) (g : α → α) (l : List α)
    (h : ∀ x ∈ l, p (g x) = p x ∧ (p x = true → g x = x)) :
    (l.map g).filter p = l.filter p := by
  induction l with
  | nil => rfl
  | cons x xs ih =>
      rw [List.map_cons, List.filter_cons, List.filter_cons]
      rcases h x (List.mem_cons_self x xs) with ⟨hpp, hfix⟩
      have hrest := ih fun y hy => h y (List.mem_cons_of_mem x hy)
      by_cases hx : p x = true
      · rw [if_pos hx, if_pos (by rw [hpp]; exact hx), hfix hx, hrest]
      · rw [if_neg hx, if_neg (by rw [hpp]; exact hx), hrest]

/-- The running job (if any) whose id a file row carries. -/
def runningOwner (js : List JobRow) (f : FileRow) : Option JobRow :=
  js.find? fun j => decide (some j.jobId = f.jobId)

/-- The net per-file effect of the recovery loop, written from the claim:
look up the (unique) previously-running owner of the row; its
log-transferred paths go `done`, the rest of its rows fall back to
`queued`, rows of no running job are untouched by the loop. -/
def foldSpecRow (logOf : Str → List Str) (js : List JobRow) (acc : DB)
    (f : FileRow) : FileRow :=
  match runningOwner js f with
  | some j => finClearRow j.jobId (recoverDonePathsIn acc logOf j) stQueued [] f
  | none => f

lemma recoverDonePathsIn_congr {acc1 acc2 : DB} (logOf : Str → List Str) (j : JobRow)
    (h : acc1.files = acc2.files) :
    recoverDonePathsIn acc1 logOf j = recoverDonePathsIn acc2 logOf j := by
  unfold recoverDonePathsIn
  rw [h]

lemma foldSpecRow_none {logOf : Str → List Str} {js : List JobRow} {acc : DB}
    {f : FileRow} (h : runningOwner js f = none) : foldSpecRow logOf js acc f = f := by
  unfold foldSpecRow
  rw [h]

lemma foldSpecRow_some {logOf : Str → List Str} {js : List JobRow} {acc : DB}
    {f : FileRow} {j : JobRow} (h : runningOwner js f = some j) :
    foldSpecRow logOf js acc f =
      finClearRow j.jobId (recoverDonePathsIn acc logOf j) stQueued [] f := by
  unfold foldSpecRow
  rw [h]

lemma runningOwner_none_of_none {js : List JobRow} {f : FileRow} (h : f.jobId = none) :
    runningOwner js f = none := by
  unfold runningOwner
  refine List.find?_eq_none.mpr ?_
  intro j' _
  simp [h]

lemma foldSpecRow_congr {acc1 acc2 : DB} (logOf : Str → List Str) (js : List JobRow)
    (f : FileRow) (h : acc1.files = acc2.files) :
    foldSpecRow logOf js acc1 f = foldSpecRow logOf js acc2 f := by
  rcases hro : runningOwner js f with _ | jown
  · rw [foldSpecRow_none hro, foldSpecRow_none hro]
  · rw [foldSpecRow_some hro, foldSpecRow_some hro, recoverDonePathsIn_congr logOf jown h]

lemma recoverDonePathsIn_step {acc : DB} {logOf : Str → List Str} {j j' : JobRow}
    {P : List Str} (hne : j'.jobId ≠ j.jobId) :
    recoverDonePathsIn
        { acc with files := acc.files.map (finClearRow j.jobId P stQueued []) }
        logOf j' =
      recoverDonePathsIn acc logOf j' := by
  unfold recoverDonePathsIn
  have hfm : ((acc.files.map (finClearRow j.jobId P stQueued [])).filter fun f =>
      f.jobId = some j'.jobId ∧ f.state = stTransferring) =
        acc.files.filter fun f => f.jobId = some j'.jobId ∧ f.state = stTransferring := by
    refine filter_map_eq _ _ _ ?_
    intro x _
    by_cases hx : x.jobId = some j.jobId
    · constructor
      · have h1 : (finClearRow j.jobId P stQueued [] x).jobId = none :=
          finClearRow_own_none hx
        have h2 : ¬((finClearRow j.jobId P stQueued [] x).jobId = some j'.jobId ∧
            (finClearRow j.jobId P stQueued [] x).state = stTransferring) := by
          rintro ⟨hc, _⟩
          rw [h1] at hc
          cases hc
        have h3 : ¬(x.jobId = some j'.jobId ∧ x.state = stTransferring) := by
          rintro ⟨hc, _⟩
          rw [hx] at hc
          exact hne (Option.some.inj hc).symm
        simp [h2, h3]
      · intro hpx
        rw [decide_eq_true_eq] at hpx
        exact absurd (by rw [hx] at hpx; exact hne (Option.some.inj hpx.1).symm) (by simp)
    · rw [finClearRow_foreign hx]
      exact ⟨rfl, fun _ => rfl⟩
  rw [hfm]

lemma runningOwner_eq_of_mem {js : List JobRow} {j : JobRow} {f : FileRow}
    (hnd : (js.map (·.jobId)).Nodup) (hj : j ∈ js) (hid : f.jobId = some j.jobId) :
    runningOwner js f = some j := by
  induction js with
  | nil => cases hj
  | cons a as ih =>
      rw [List.map_cons, List.nodup_cons] at hnd
      rcases List.mem_cons.mp hj with he | hm
      · subst he
        unfold runningOwner
        rw [List.find?_cons_of_pos _ (by rw [decide_eq_true_eq, hid])]
      · have hne : ¬(some a.jobId = f.jobId) := by
          intro hc
          rw [hid] at hc
          exact hnd.1 (by rw [Option.some.inj hc]; exact List.mem_map_of_mem _ hm)
        unfold runningOwner
        rw [List.find?_cons_of_neg _ (by simpa using hne)]
        exact ih hnd.2 hm

lemma recover_fold_files (logOf : Str → List Str) (js : List JobRow) (acc : DB)
    (hnd : (js.map (·.jobId)).Nodup) :
    js.foldl (recoverStepJob logOf) acc =
      { acc with files := acc.files.map (foldSpecRow logOf js acc) } := by
  induction js generalizing acc with
  | nil =>
      rw [List.foldl_nil]
      have hid : acc.files.map (foldSpecRow logOf [] acc) = acc.files := by
        have : ∀ f ∈ acc.files, foldSpecRow logOf [] acc f = id f := by
          intro f _
          rfl
        rw [List.map_congr_left this, List.map_id]
      rw [hid]
  | cons j js' ih =>
      rw [List.map_cons, List.nodup_cons] at hnd
      rw [List.foldl_cons, recoverStep_eq]
      rw [ih _ hnd.2]
      congr 1
      rw [List.map_map]
      refine List.map_congr_left ?_
      intro f _
      rw [Function.comp_apply]
      by_cases hA : f.jobId = some j.jobId
      · have hgnone : (finClearRow j.jobId (recoverDonePathsIn acc logOf j) stQueued [] f).jobId =
            none := finClearRow_own_none hA
        rw [foldSpecRow_none (runningOwner_none_of_none hgnone)]
        have hown : runningOwner (j :: js') f = some j := by
          unfold runningOwner
          rw [List.find?_cons_of_pos _ (by rw [decide_eq_true_eq, hA])]
        rw [foldSpecRow_some hown]
      · rw [finClearRow_foreign hA]
        have hro : runningOwner (j :: js') f = runningOwner js' f := by
          unfold runningOwner
          rw [List.find?_cons_of_neg _ (by simpa using fun hc => hA hc.symm)]
        rcases hown : runningOwner js' f with _ | j'
        · rw [foldSpecRow_none hown, foldSpecRow_none (hro.trans hown)]
        · have hj'mem := List.mem_of_find?_eq_some hown
          have hne : j'.jobId ≠ j.jobId := by
            intro hc
            exact hnd.1 (by rw [← hc]; exact List.mem_map_of_mem _ hj'mem)
          rw [foldSpecRow_some hown, foldSpecRow_some (hro.trans hown),
            recoverDonePathsIn_step hne]

/-- `RecoverDanglingRuns` with its lets expanded. -/
lemma recover_unfold (db : DB) (logOf : Str → List Str) (now : Int) :
    RecoverDanglingRuns db logOf now =
      { files := ((db.jobs.filter fun j => j.status = jsRunning).foldl
            (recoverStepJob logOf)
            { db with jobs := db.jobs.map (recoverJobRow now) }).files.map
          safetyRequeueRow,
        jobs := ((db.jobs.filter fun j => j.status = jsRunning).foldl
            (recoverStepJob logOf)
            { db with jobs := db.jobs.map (recoverJobRow now) }).jobs,
        rules := ((db.jobs.filter fun j => j.status = jsRunning).foldl
            (recoverStepJob logOf)
            { db with jobs := db.jobs.map (recoverJobRow now) }).rules,
        groups := ((db.jobs.filter fun j => j.status = jsRunning).foldl
            (recoverStepJob logOf)
            { db with jobs := db.jobs.map (recoverJobRow now) }).groups } := rfl

lemma safetyRequeueRow_not_transferring (y : FileRow) :
    (safetyRequeueRow y).state ≠ stTransferring := by
  unfold safetyRequeueRow
  by_cases h : y.state = stTransferring
  · rw [if_pos h]
    exact (by decide : stQueued ≠ stTransferring)
  · rw [if_neg h]
    exact h

/-- C4: after crash recovery, no job row is `running` and no file row is
`transferring`; the jobs table is exactly the per-row recovery update
(`failed`, error `"daemon restarted"` preserved when non-empty), and the
files table is exactly the per-row reference disposition read off the
claim: each previously-running job's `transferring` files that its log
lists become `done` with `job_id` cleared, the remainder of that job's
files go back to `queued` with `job_id` cleared, and any ownerless
`transferring` row is re-queued by the safety net.  The hypothesis is the
`jobs.job_id` primary-key property for the running rows. -/
theorem c4_recover_dangling (db : DB) (logOf : Str → List Str) (now : Int)
    (hnd : ((db.jobs.filter fun j => j.status = jsRunning).map (·.jobId)).Nodup) :
    RecoverDanglingRuns db logOf now =
      { db with
          jobs := db.jobs.map (recoverJobRow now),
          files := db.files.map fun f =>
            safetyRequeueRow
              (foldSpecRow logOf (db.jobs.filter fun j => j.status = jsRunning) db f) } ∧
      (∀ j ∈ (RecoverDanglingRuns db logOf now).jobs, j.status ≠ jsRunning) ∧
      (∀ f ∈ (RecoverDanglingRuns db logOf now).files, f.state ≠ stTransferring) ∧
      ∀ j ∈ db.jobs, j.status = jsRunning → ∀ f ∈ db.files,
        f.jobId = some j.jobId → f.state = stTransferring →
          safetyRequeueRow
              (foldSpecRow logOf (db.jobs.filter fun j2 => j2.status = jsRunning) db f) =
            if f.path ∈ transferredPathsFromLog (logOf j.logPath) then
              { f with state := stDone, jobId := none }
            else { f with state := stQueued, jobId := none, lastError := [] } := by
  have hfold := recover_fold_files logOf (db.jobs.filter fun j => j.status = jsRunning)
    { db with jobs := db.jobs.map (recoverJobRow now) } hnd
  have hmain : RecoverDanglingRuns db logOf now =
      { db with
          jobs := db.jobs.map (recoverJobRow now),
          files := db.files.map fun f =>
            safetyRequeueRow
              (foldSpecRow logOf (db.jobs.filter fun j => j.status = jsRunning) db f) } := by
    rw [recover_unfold, hfold]
    show ({ files := (db.files.map (foldSpecRow logOf
              (db.jobs.filter fun j => j.status = jsRunning)
              { db with jobs := db.jobs.map (recoverJobRow now) })).map safetyRequeueRow,
            jobs := db.jobs.map (recoverJobRow now),
            rules := db.rules, groups := db.groups } : DB) = _
    rw [List.map_map]
    congr 1
  refine ⟨hmain, ?_, ?_, ?_⟩
  · intro j hj
    rw [hmain] at hj
    have hj2 : j ∈ db.jobs.map (recoverJobRow now) := hj
    rcases List.mem_map.mp hj2 with ⟨j0, _, he⟩
    subst he
    unfold recoverJobRow
    by_cases hr : j0.status = jsRunning
    · rw [if_pos hr]
      exact (by decide : jsFailed ≠ jsRunning)
    · rw [if_neg hr]
      exact hr
  · intro f hf
    rw [hmain] at hf
    have hf2 : f ∈ db.files.map fun f =>
        safetyRequeueRow
          (foldSpecRow logOf (db.jobs.filter fun j => j.status = jsRunning) db f) := hf
    rcases List.mem_map.mp hf2 with ⟨f0, _, he⟩
    subst he
    exact safetyRequeueRow_not_transferring _
  · intro j hj hrun f hf hid htrans
    have hjmem : j ∈ db.jobs.filter fun j2 => j2.status = jsRunning :=
      List.mem_filter.mpr ⟨hj, by rw [decide_eq_true_eq]; exact hrun⟩
    have hown := runningOwner_eq_of_mem hnd hjmem hid
    rw [foldSpecRow_some hown]
    by_cases hin : f.path ∈ transferredPathsFromLog (logOf j.logPath)
    · rw [if_pos hin]
      have hdp : f.path ∈ recoverDonePathsIn db logOf j := by
        unfold recoverDonePathsIn
        refine List.mem_filter.mpr ⟨List.mem_map_of_mem _ (List.mem_filter.mpr
          ⟨hf, by rw [decide_eq_true_eq]; exact ⟨hid, htrans⟩⟩), ?_⟩
        rw [decide_eq_true_eq]
        exact hin
      unfold finClearRow
      rw [if_pos hid, if_pos hdp]
      unfold safetyRequeueRow
      rw [if_neg (show stDone ≠ stTransferring by decide)]
    · rw [if_neg hin]
      have hdp : f.path ∉ recoverDonePathsIn db logOf j := by
        intro hc
        unfold recoverDonePathsIn at hc
        have hc2 := (List.mem_filter.mp hc).2
        rw [decide_eq_true_eq] at hc2
        exact hin hc2
      unfold finClearRow
      rw [if_pos hid, if_neg hdp]
      unfold safetyRequeueRow
      rw [if_neg (show stQueued ≠ stTransferring by decide)]

/-- C4 witness: scenario 6 of the spec — one running job with four
`transferring` files, two of them listed `Copied` in its log; after
recovery the job is failed with "daemon restarted", two files are `done`,
two are `queued`, nothing is `transferring` or `running`. -/
theorem c4_recover_dangling_witness :
    (RecoverDanglingRuns
        { files :=
            [{ ruleId := "r".data, path := "a".data, size := 1, modTime := 0,
               state := stTransferring, jobId := some "J".data, failCount := 0,
               lastError := [], lastSeen := 0, seenSize := 0, seenModTime := 0 },
             { ruleId := "r".data, path := "b".data, size := 1, modTime := 0,
               state := stTransferring, jobId := some "J".data, failCount := 0,
               lastError := [], lastSeen := 0, seenSize := 0, seenModTime := 0 },
             { ruleId := "r".data, path := "c".data, size := 1, modTime := 0,
               state := stTransferring, jobId := some "J".data, failCount := 0,
               lastError := [], lastSeen := 0, seenSize := 0, seenModTime := 0 },
             { ruleId := "r".data, path := "d".data, size := 1, modTime := 0,
               state := stTransferring, jobId := some "J".data, failCount := 0,
               lastError := [], lastSeen := 0, seenSize := 0, seenModTime := 0 }],
          jobs := [{ jobId := "J".data, ruleId := "r".data, transferMode := "copy".data,
                     rcPort := 0, startedAt := 0, endedAt := 0, status := jsRunning,
                     bytesDone := 0, error := [], logPath := "log".data }],
          rules := [], groups := [] }
        (fun _ => ["2025/01/01 00:00:00 INFO  : a : Copied (new)".data,
                   "2025/01/01 00:00:01 INFO  : b : Copied (new)".data]) 99).files.map
        (fun f => (f.state, f.jobId)) =
      [(stDone, none), (stDone, none), (stQueued, none), (stQueued, none)] ∧
      (RecoverDanglingRuns
        { files :=
            [{ ruleId := "r".data, path := "a".data, size := 1, modTime := 0,
               state := stTransferring, jobId := some "J".data, failCount := 0,
               lastError := [], lastSeen := 0, seenSize := 0, seenModTime := 0 },
             { ruleId := "r".data, path := "b".data, size := 1, modTime := 0,
               state := stTransferring, jobId := some "J".data, failCount := 0,
               lastError := [], lastSeen := 0, seenSize := 0, seenModTime := 0 },
             { ruleId := "r".data, path := "c".data, size := 1, modTime := 0,
               state := stTransferring, jobId := some "J".data, failCount := 0,
               lastError := [], lastSeen := 0, seenSize := 0, seenModTime := 0 },
             { ruleId := "r".data, path := "d".data, size := 1, modTime := 0,
               state := stTransferring, jobId := some "J".data, failCount := 0,
               lastError := [], lastSeen := 0, seenSize := 0, seenModTime := 0 }],
          jobs := [{ jobId := "J".data, ruleId := "r".data, transferMode := "copy".data,
                     rcPort := 0, startedAt := 0, endedAt := 0, status := jsRunning,
                     bytesDone := 0, error := [], logPath := "log".data }],
          rules := [], groups := [] }
        (fun _ => ["2025/01/01 00:00:00 INFO  : a : Copied (new)".data,
                   "2025/01/01 00:00:01 INFO  : b : Copied (new)".data]) 99).jobs.map
        (fun j => (j.status, j.error)) = [(jsFailed, "daemon restarted".data)] := by
  rw [(c4_recover_dangling _ _ 99 (by decide)).1]
  refine ⟨by decide, by decide⟩

/-- C3 witness: two claimed paths, an empty done set, and a
nothing-to-transfer marker drive both rows to `done`. -/
theorem c3_nothing_to_transfer_witness :
    ((finalizeAfterExit
        { files :=
            [{ ruleId := "r".data, path := "a".data, size := 1, modTime := 0,
               state := stTransferring, jobId := some "j".data, failCount := 0,
               lastError := [], lastSeen := 0, seenSize := 0, seenModTime := 0 },
             { ruleId := "r".data, path := "b".data, size := 2, modTime := 0,
               state := stTransferring, jobId := some "j".data, failCount := 0,
               lastError := [], lastSeen := 0, seenSize := 0, seenModTime := 0 }],
          jobs := [{ jobId := "j".data, ruleId := "r".data, transferMode := "copy".data,
                     rcPort := 0, startedAt := 0, endedAt := 0, status := jsRunning,
                     bytesDone := 0, error := [], logPath := "l".data }],
          rules := [], groups := [] }
        "j".data ["a".data, "b".data] .success
        ["2025/01/01 00:00:01 NOTICE: There was nothing to transfer".data] 50
        7).files.map (·.state)) = [stDone, stDone] := by
  rw [c3_nothing_to_transfer _ _ _ _ _ _ (by decide) (by decide) (by decide)]
  decide

/-! ## C8: the transfer-log line parser

The source parser locates substrings with a Go-style downward scan
(`lastIndexFrom`); the specification speaks of "the last occurrence".  The
spec-side parser below is written from the (amended) specification words:
occurrence positions are listed in increasing order and the last one is
taken; the rightmost marker is the maximum of the markers' last
occurrences; every backslash of the trimmed extract is replaced by a
forward slash (so a leading backslash becomes a leading slash — it is not
stripped).  The C8 theorem proves the source parser equal to it. -/

/-- A Go `LastIndex` result as an `Int` (`-1` for "no occurrence"). -/
def optIdx : Option Nat → Int
  | some k => (k : Int)
  | none => -1

/-- All positions at which `sub` occurs in `s`, in increasing order; the
last entry is the last occurrence. -/
def lastOccurrence (s sub : Str) : Option Nat :=
  ((List.range (s.length + 1)).filter fun i => decide (sub <+: s.drop i)).getLast?

/-- Backslash-to-slash normalization, one character. -/
def slashify (c : Char) : Char := if c = '\\' then '/' else c

/-- The rightmost marker occurrence, per the spec: the maximum of the three
markers' last occurrences (no occurrence counting as `-1`). -/
def specLastMarkerIdx (line : Str) : Int :=
  (markerStrings.map fun m => optIdx (lastOccurrence line m)).foldr max (-1)

/-- The spec's extraction: the text after the last `" : "` (preferring the
longer form, falling back to `": "`). -/
def specExtractHead (head0 : Str) : Str :=
  match lastOccurrence head0 " : ".data with
  | some j => head0.drop (j + 3)
  | none =>
      match lastOccurrence head0 ": ".data with
      | some j => head0.drop (j + 2)
      | none => head0

/-- The transfer-log line parser as the (amended) spec describes it. -/
def specParseTransferredPathLine (line : Str) : Option Str :=
  if specLastMarkerIdx line ≤ 0 then none
  else if (goTrimSpace (specExtractHead
      (goTrimSpace (line.take (specLastMarkerIdx line).toNat)))).map slashify = [] then
    none
  else
    some ((goTrimSpace (specExtractHead
      (goTrimSpace (line.take (specLastMarkerIdx line).toNat)))).map slashify)

lemma lastIndexFrom_eq (s sub : Str) (n : Nat) :
    lastIndexFrom s sub n =
      ((List.range (n + 1)).filter fun i => decide (sub <+: s.drop i)).getLast? := by
  induction n with
  | zero =>
      have hr : List.range (0 + 1) = [0] := rfl
      rw [hr]
      by_cases hp : sub <+: s
      · rw [lastIndexFrom, if_pos hp]
        simp [hp]
      · rw [lastIndexFrom, if_neg hp]
        simp [hp]
  | succ m ih =>
      rw [lastIndexFrom, List.range_succ, List.filter_append]
      by_cases hp : sub <+: s.drop (m + 1)
      · rw [if_pos hp]
        have hone : List.filter (fun i => decide (sub <+: s.drop i)) [m + 1] = [m + 1] := by
          simp [hp]
        rw [hone, List.getLast?_concat]
      · rw [if_neg hp]
        have hnone : List.filter (fun i => decide (sub <+: s.drop i)) [m + 1] = [] := by
          simp [hp]
        rw [hnone, List.append_nil, ih]

lemma goLastIndex_eq (s sub : Str) : goLastIndex s sub = optIdx (lastOccurrence s sub) := by
  unfold goLastIndex lastOccurrence
  rw [lastIndexFrom_eq]
  rcases hg : ((List.range (s.length + 1)).filter
      fun i => decide (sub <+: s.drop i)).getLast? with _ | k
  · rfl
  · rfl

lemma max_fold3 (a b c : Int) :
    max (max (max (-1) a) b) c = max a (max b (max c (-1))) := by
  simp [max_assoc, max_comm, max_left_comm]

lemma goParseIdx_eq (line : Str) : goParseIdx line = specLastMarkerIdx line := by
  unfold goParseIdx specLastMarkerIdx markerStrings
  simp only [List.foldl_cons, List.foldl_nil, List.map_cons, List.map_nil,
    List.foldr_cons, List.foldr_nil, goLastIndex_eq]
  exact max_fold3 _ _ _

lemma goExtractHead_eq (h0 : Str) : goExtractHead h0 = specExtractHead h0 := by
  unfold goExtractHead specExtractHead
  rw [goLastIndex_eq, goLastIndex_eq]
  rcases h1 : lastOccurrence h0 " : ".data with _ | j
  · rcases h2 : lastOccurrence h0 ": ".data with _ | j2
    · simp [optIdx]
    · simp [optIdx]
  · simp [optIdx]

lemma goReplaceChar_single (old new : Char) (s : Str) :
    goReplaceChar old [new] s = s.map fun c => if c = old then new else c := by
  induction s with
  | nil => rfl
  | cons c cs ih =>
      show (if c = old then [new] else [c]) ++ goReplaceChar old [new] cs = _
      by_cases hc : c = old
      · rw [if_pos hc, ih]
        rw [List.map_cons, if_pos hc]
        rfl
      · rw [if_neg hc, ih]
        rw [List.map_cons, if_neg hc]
        rfl

lemma goReplaceChar_slash (s : Str) :
    goReplaceChar '\\' "/".data s = s.map slashify := by
  show goReplaceChar '\\' ['/'] s = _
  rw [goReplaceChar_single]
  rfl

/-- C8 counterexample: for the line `… INFO  : \a : Copied (new)` the claim
says the leading backslash is *stripped*, yielding `a`; the code replaces
every backslash with a forward slash, yielding `/a`. -/
theorem c8_counterexample :
    parseTransferredPathLine "2025/12/25 14:45:20 INFO  : \\a : Copied (new)".data =
        some "/a".data ∧ "/a".data ≠ "a".data := by
  refine ⟨by decide, by decide⟩

/-- C8 (amended): for every transfer-log line the parser behaves exactly as
the amended description: it selects the last occurrence of a marker — the
maximum of the markers' last occurrences, so embedded colons in the path
are tolerated — rejects marker index 0 and lines without a marker, trims
the text before the marker, extracts what follows the last level separator
`" : "` (falling back to `": "`), trims again, and replaces *every*
backslash with a forward slash (a leading backslash therefore becomes a
leading `/` rather than being stripped); an empty extract yields no path. -/
theorem c8_parse_line_refines (line : Str) :
    parseTransferredPathLine line = specParseTransferredPathLine line := by
  unfold parseTransferredPathLine specParseTransferredPathLine
  rw [goParseIdx_eq, goExtractHead_eq, goReplaceChar_slash]

end SyncTool
